import Mathlib

/-!
Shallow embedding of the KP-generator rendering engine
(`kp_generator/render/docx_template.py`, `kp_generator/render/excel_template.py`,
`kp_generator/pricing.py`, `kp_generator/models.py`).

Python `Decimal` values are modelled as `ℚ`; `Decimal.quantize(Decimal("0.01"),
ROUND_HALF_UP)` is modelled as exact rational rounding half away from zero to two
fractional digits (Python's `ROUND_HALF_UP` rounds ties away from zero).
A docx table is a list of rows, each row a list of cell texts.
Fallible code paths are modelled with `Except String`.
-/

namespace KP

/-- ROUND_HALF_UP of a rational to an integer: ties round away from zero
(Python `Decimal.quantize(Decimal("1"), ROUND_HALF_UP)`). -/
def roundHalfUpInt (q : ℚ) : ℤ :=
  if q < 0 then -(⌊-q + 1/2⌋) else ⌊q + 1/2⌋

/-- Model of `Decimal.quantize(Decimal("0.01"), ROUND_HALF_UP)`. -/
def quantize2 (q : ℚ) : ℚ :=
  (roundHalfUpInt (q * 100) : ℚ) / 100

/-- Model of Python `str.lower` restricted to the alphabets the templates use:
ASCII (`Char.toLower`) plus the Cyrillic uppercase block А..Я and Ё. -/
def pyToLower (c : Char) : Char :=
  if 0x410 ≤ c.toNat ∧ c.toNat ≤ 0x42F then Char.ofNat (c.toNat + 0x20)
  else if c.toNat = 0x401 then Char.ofNat 0x451
  else c.toLower

/-- Whitespace characters matched by the regex class `\s` (after the NBSP of
`_normalize_text` has already been replaced by a plain space). -/
def isWsChar (c : Char) : Bool :=
  c = ' ' || c = '\t' || c = '\n' || c = '\r' || c = '\x0b' || c = '\x0c'

/-- Split a character list into maximal whitespace-free words. -/
def wordsAux : List Char → List Char → List (List Char)
  | [], acc => if acc = [] then [] else [acc.reverse]
  | c :: cs, acc =>
      if isWsChar c then
        if acc = [] then wordsAux cs [] else acc.reverse :: wordsAux cs []
      else wordsAux cs (c :: acc)

/-- Join words with single spaces. -/
def joinWords : List (List Char) → List Char
  | [] => []
  | [w] => w
  | w :: ws => w ++ ' ' :: joinWords ws

/-- Model of `_normalize_text` from `docx_template.py`: replace NBSP by a space,
collapse runs of whitespace to single spaces, strip, lowercase. -/
def normalizeText (s : String) : String :=
  let cs := s.data.map (fun c => if c = Char.ofNat 0xA0 then ' ' else pyToLower c)
  String.mk (joinWords (wordsAux cs []))

/-- Substring test on character lists. -/
def listInfix (needle hay : List Char) : Bool :=
  hay.tails.any (fun t => needle.isPrefixOf t)

/-- Model of the Python substring test `needle in hay`. -/
def containsSub (needle hay : String) : Bool :=
  listInfix needle.data hay.data

/-- Decimal digits of a natural number, most significant first (fuel-structured
so that the kernel can evaluate it; `n + 1` units of fuel always suffice). -/
def natToDigitsAux : ℕ → ℕ → List Char
  | 0, _ => []
  | fuel + 1, n =>
      if n < 10 then [Nat.digitChar n]
      else natToDigitsAux fuel (n / 10) ++ [Nat.digitChar (n % 10)]

/-- Decimal digits of a natural number, most significant first. -/
def natToDigits (n : ℕ) : List Char :=
  natToDigitsAux (n + 1) n

/-- Value of a list of decimal digit characters, most significant first. -/
def digitsToNat (ds : List Char) : ℕ :=
  ds.foldl (fun n c => 10 * n + (c.toNat - '0'.toNat)) 0

/-- Insert a space after every group of three characters, operating on a
reversed digit list (model of `"{:,}".format` grouping with the comma replaced
by a space, as `_fmt_money` does). -/
def groupThousandsRev : List Char → List Char
  | a :: b :: c :: d :: rest => a :: b :: c :: ' ' :: groupThousandsRev (d :: rest)
  | l => l

/-- Group a digit list (most significant first) into thousands separated by
spaces, as `"{:,}".format(n).replace(",", " ")` does. -/
def groupDigits (ds : List Char) : List Char :=
  (groupThousandsRev ds.reverse).reverse

/-- Model of `_fmt_money`: quantize to 2 decimals half-up, render with a comma
decimal separator, space thousand separators and a leading minus sign. -/
def fmtMoney (v : ℚ) : String :=
  let n := roundHalfUpInt (v * 100)
  let m := n.natAbs
  let ip := m / 100
  let fp := m % 100
  let signStr := if n < 0 then "-" else ""
  signStr ++ String.mk (groupDigits (natToDigits ip)) ++ "," ++
    String.mk [Nat.digitChar (fp / 10), Nat.digitChar (fp % 10)]

/-- Decimal rendering of an integer. -/
def intToStr (i : ℤ) : String :=
  (if i < 0 then "-" else "") ++ String.mk (natToDigits i.natAbs)

/-- Model of `_fmt_qty`: integral quantities print without decimals, fractional
ones with a comma and the exact (trailing-zero-free) decimal expansion, as
`format(q.normalize(), "f")` produces for a `Decimal`.  A quantity that is not
representable as a finite decimal (impossible for a `Decimal` input) falls back
to "?". -/
def fmtQty (q : ℚ) : String :=
  if q.den = 1 then intToStr q.num
  else
    match (List.range 28).find? (fun k => (q * (10 : ℚ) ^ (k + 1)).den = 1) with
    | some k =>
        let kk := k + 1
        let n := (q * (10 : ℚ) ^ kk).num
        let m := n.natAbs
        let ip := m / 10 ^ kk
        let fpDigits := natToDigits (m % 10 ^ kk)
        (if n < 0 then "-" else "") ++ String.mk (natToDigits ip) ++ "," ++
          String.mk (List.replicate (kk - fpDigits.length) '0' ++ fpDigits)
    | none => "?"

/-- Model of Python `str.strip` (both ends, whitespace). -/
def pyStripL (cs : List Char) : List Char :=
  ((cs.dropWhile (fun c => isWsChar c)).reverse.dropWhile (fun c => isWsChar c)).reverse

/-- String-level `str.strip`. -/
def pyStrip (s : String) : String := String.mk (pyStripL s.data)

/-- Split a digit/dot/minus character list at the first '.', failing when a
second '.' occurs (mirrors `Decimal(...)` rejecting "1.2.3"). -/
def splitAtDot (cs : List Char) : Option (List Char × List Char) :=
  let ip := cs.takeWhile (fun c => c ≠ '.')
  let rest := cs.dropWhile (fun c => c ≠ '.')
  match rest with
  | [] => some (ip, [])
  | _ :: tl => if tl.any (fun c => c = '.') then none else some (ip, tl)

/-- Parse a character list of the shape `-? digits* ('.' digits*)?` with at
least one digit, the forms accepted by `Decimal(...)` after `_to_decimal_safe`
has filtered the text down to `[0-9.-]`. -/
def parseDecChars (cs : List Char) : Option ℚ :=
  let neg := cs.head? = some '-'
  let cs1 := if neg then cs.tail else cs
  if cs1.any (fun c => c = '-') then none
  else
    match splitAtDot cs1 with
    | none => none
    | some (ip, fp) =>
        if (ip ++ fp).all Char.isDigit ∧ ip ++ fp ≠ [] then
          let v : ℚ := (digitsToNat ip : ℚ) + (digitsToNat fp : ℚ) / (10 : ℚ) ^ fp.length
          some (if neg then -v else v)
        else none

/-- Model of `_to_decimal_safe`: replace NBSP, strip, drop spaces, comma→dot,
keep only digits/dot/minus, and parse, defaulting to 0 on failure. -/
def toDecimalSafe (s : String) : ℚ :=
  let cs0 := s.data.map (fun c => if c = Char.ofNat 0xA0 then ' ' else c)
  let cs1 := (pyStripL cs0).filter (fun c => c ≠ ' ')
  let cs2 := cs1.map (fun c => if c = ',' then '.' else c)
  let cs3 := cs2.filter (fun c => c.isDigit || c = '.' || c = '-')
  if cs3 = [] ∨ cs3 = ['-'] ∨ cs3 = ['.'] then 0
  else (parseDecChars cs3).getD 0

/-- Model of `kp_generator.models.Item` (Decimal fields as `ℚ`). -/
structure Item where
  name : String
  qty : ℚ
  unit : String
  price : ℚ
  amount : ℚ
  deriving Repr, DecidableEq

/-! ### docx table model

A docx table row is its list of cell texts; a table is its list of rows. -/

abbrev Row := List String

abbrev Table := List Row

/-- `HEADER_SYNONYMS["name"]`. -/
def synName : List String :=
  ["наименование", "товар", "услуга", "описание объекта закупки", "наименование товара"]

/-- `HEADER_SYNONYMS["qty"]`. -/
def synQty : List String := ["количество", "кол-во", "кол во", "кол.", "qty"]

/-- `HEADER_SYNONYMS["unit"]`. -/
def synUnit : List String := ["ед", "ед.", "едизм", "ед.изм", "единица измерения"]

/-- `HEADER_SYNONYMS["price"]`. -/
def synPrice : List String := ["цена", "цена за ед", "цена за единицу", "цена, руб"]

/-- `HEADER_SYNONYMS["amount"]`. -/
def synAmount : List String := ["сумма", "стоимость", "итого", "сумма, руб"]

/-- Does any synonym occur inside the (already normalized) cell text? -/
def cellMatches (syns : List String) (txt : String) : Bool :=
  syns.any (fun syn => containsSub syn txt)

/-- The `col_map` dictionary: semantic role → column index. -/
structure ColMap where
  name : Option ℕ := none
  qty : Option ℕ := none
  unit : Option ℕ := none
  price : Option ℕ := none
  amount : Option ℕ := none
  deriving Repr, DecidableEq

/-- State threaded through `_find_header_row_and_colmap`'s scan:
the column map built so far and the `header_rows_found` list. -/
structure ScanState where
  cm : ColMap := {}
  rowsFound : List ℕ := []
  deriving Repr, DecidableEq

/-- Bind the `name` role to column `c` of row `r` when it is still unbound and
a synonym occurs in the normalized text (one `if key in col_map: continue` arm
of `_find_header_row_and_colmap`). -/
def bindName (r c : ℕ) (txt : String) (st : ScanState) : ScanState :=
  if st.cm.name.isNone && cellMatches synName txt then
    { cm := { st.cm with name := some c }, rowsFound := st.rowsFound ++ [r] } else st

/-- Bind the `qty` role (see `bindName`). -/
def bindQty (r c : ℕ) (txt : String) (st : ScanState) : ScanState :=
  if st.cm.qty.isNone && cellMatches synQty txt then
    { cm := { st.cm with qty := some c }, rowsFound := st.rowsFound ++ [r] } else st

/-- Bind the `unit` role (see `bindName`). -/
def bindUnit (r c : ℕ) (txt : String) (st : ScanState) : ScanState :=
  if st.cm.unit.isNone && cellMatches synUnit txt then
    { cm := { st.cm with unit := some c }, rowsFound := st.rowsFound ++ [r] } else st

/-- Bind the `price` role (see `bindName`). -/
def bindPrice (r c : ℕ) (txt : String) (st : ScanState) : ScanState :=
  if st.cm.price.isNone && cellMatches synPrice txt then
    { cm := { st.cm with price := some c }, rowsFound := st.rowsFound ++ [r] } else st

/-- Bind the `amount` role (see `bindName`). -/
def bindAmount (r c : ℕ) (txt : String) (st : ScanState) : ScanState :=
  if st.cm.amount.isNone && cellMatches synAmount txt then
    { cm := { st.cm with amount := some c }, rowsFound := st.rowsFound ++ [r] } else st

/-- Process one cell of the header scan: for each role, in the dictionary order
name/qty/unit/price/amount, bind the role to this column if it is still unbound
and a synonym occurs in the normalized text (mirrors the inner loops of
`_find_header_row_and_colmap`). -/
def scanCell (r c : ℕ) (cell : String) (st : ScanState) : ScanState :=
  let txt := normalizeText cell
  if txt = "" then st
  else bindAmount r c txt (bindPrice r c txt (bindUnit r c txt (bindQty r c txt
    (bindName r c txt st))))

/-- Scan one row of the header window. -/
def scanRow (r : ℕ) (cells : Row) (st : ScanState) : ScanState :=
  cells.enum.foldl (fun st p => scanCell r p.1 p.2 st) st

/-- Scan the first `min maxScan (length t)` rows of the table. -/
def scanTable (t : Table) (maxScan : ℕ) : ScanState :=
  (t.take maxScan).enum.foldl (fun st p => scanRow p.1 p.2 st) {}

/-- `max(header_rows_found)` with Python's behavior folded through the guard:
the list is nonempty whenever it is used (`0` as the degenerate default). -/
def maxList (l : List ℕ) : ℕ :=
  match l with
  | [] => 0
  | x :: xs => xs.foldl max x

/-- `min(header_rows_found)` (`0` as the degenerate default). -/
def minList (l : List ℕ) : ℕ :=
  match l with
  | [] => 0
  | x :: xs => xs.foldl min x

/-- Model of `_find_header_row_and_colmap`: returns
`(header_end_row_idx, col_map, header_start_row_idx)` or the structural error. -/
def findHeaderRowAndColmap (t : Table) (maxScan : ℕ := 5) :
    Except String (ℕ × ColMap × ℕ) :=
  let st := scanTable t maxScan
  if st.cm.name.isSome && st.cm.qty.isSome && (st.cm.price.isSome || st.cm.amount.isSome) then
    .ok (maxList st.rowsFound, st.cm, minList st.rowsFound)
  else
    .error "Не удалось найти таблицу товаров: не обнаружены заголовки колонок"

/-- Totals row categories (`'total' / 'vat' / 'total_without_vat'`). -/
inductive TotalType
  | total
  | vat
  | totalWithoutVat
  deriving Repr, DecidableEq

/-- Model of `_classify_total_row`: keyword priority VAT-free first, then VAT,
then generic totals. -/
def classifyTotalRow (left : String) : Option TotalType :=
  let t := normalizeText left
  if t = "" then none
  else if containsSub "без ндс" t || containsSub "итого без ндс" t then some .totalWithoutVat
  else if containsSub "ндс" t || containsSub "в том числе ндс" t then some .vat
  else if containsSub "итого" t || containsSub "всего" t then some .total
  else none

/-- The `total_rows` dictionary: category → first row index found. -/
structure TotalsIdx where
  total : Option ℕ := none
  vat : Option ℕ := none
  twv : Option ℕ := none
  deriving Repr, DecidableEq

/-- The recorded row positions of a `TotalsIdx` (its `.values()`). -/
def TotalsIdx.values (ti : TotalsIdx) : List ℕ :=
  [ti.total, ti.vat, ti.twv].filterMap id

/-- Record a classified row in the dictionary only on first occurrence. -/
def recordTotal (ti : TotalsIdx) (ty : TotalType) (i : ℕ) : TotalsIdx :=
  match ty with
  | .total => if ti.total.isNone then { ti with total := some i } else ti
  | .vat => if ti.vat.isNone then { ti with vat := some i } else ti
  | .totalWithoutVat => if ti.twv.isNone then { ti with twv := some i } else ti

/-- One step of the `_find_total_rows` loop. -/
def totalRowStep (ti : TotalsIdx) (p : ℕ × Row) : TotalsIdx :=
  match p.2 with
  | [] => ti
  | left :: _ =>
      match classifyTotalRow left with
      | some ty => recordTotal ti ty p.1
      | none => ti

/-- Model of `_find_total_rows`: classify every row from `start` on by its
first cell, keeping the first occurrence of each category (rows with no cells
are skipped); `for i in range(start_row, len(rows))` is the suffix of the rows
paired with their indices. -/
def findTotalRows (t : Table) (start : ℕ) : TotalsIdx :=
  ((t.drop start).enumFrom start).foldl totalRowStep {}

/-- `min(total_rows.values()) if total_rows else None`. -/
def firstTotal (ti : TotalsIdx) : Option ℕ :=
  match ti.values with
  | [] => none
  | x :: xs => some (xs.foldl min x)

/-! ### Row mutation primitives -/

/-- Remove the row at index `i` (no-op when out of range, matching the guard in
`_delete_rows`). -/
def removeIdx (t : Table) (i : ℕ) : Table :=
  if i < t.length then t.take i ++ t.drop (i + 1) else t

/-- Insert one element into a descending, duplicate-free list. -/
def insertDesc (i : ℕ) : List ℕ → List ℕ
  | [] => [i]
  | j :: js => if j < i then i :: j :: js else if j = i then j :: js else j :: insertDesc i js

/-- `sorted(set(indices), reverse=True)`. -/
def sortDescDedup (l : List ℕ) : List ℕ :=
  l.foldl (fun acc i => insertDesc i acc) []

/-- Model of `_delete_rows`: delete by indices, highest first. -/
def deleteRows (t : Table) (idxs : List ℕ) : Table :=
  (sortDescDedup idxs).foldl removeIdx t

/-- Insert a row before position `i` (the cloned `tr` lands exactly at index
`i`; when `i ≥ length` this appends, which cannot occur for an existing
`target_tr`). -/
def insertAt (t : Table) (i : ℕ) (r : Row) : Table :=
  t.take i ++ r :: t.drop i

/-- `re.fullmatch(r"\d+", txt)`. -/
def isDigitsStr (s : String) : Bool :=
  s ≠ "" && s.data.all Char.isDigit

/-- Model of `_fill_row_cells`: optionally fill a leading row-number column,
then write name/qty/unit/price/amount through the column map (in that
dictionary order). -/
def fillRowCells (cells : Row) (cm : ColMap) (itemNo : ℕ) (it : Item) : Row :=
  let cells :=
    match cm.name with
    | some n =>
        if 0 < n then
          let t0 := normalizeText (cells.head?.getD "")
          if t0 = "" || isDigitsStr t0 then cells.set 0 (String.mk (natToDigits itemNo))
          else cells
        else cells
    | none => cells
  let cells := match cm.name with | some n => cells.set n it.name | none => cells
  let cells := match cm.qty with | some n => cells.set n (fmtQty it.qty) | none => cells
  let cells := match cm.unit with | some n => cells.set n it.unit | none => cells
  let cells := match cm.price with | some n => cells.set n (fmtMoney it.price) | none => cells
  let cells := match cm.amount with | some n => cells.set n (fmtMoney it.amount) | none => cells
  cells

/-! ### Totals update -/

/-- Python's `col_map.get("amount") or col_map.get("price")`: a mapped column 0
is falsy and falls through to the price column. -/
def pyOrCol (a b : Option ℕ) : Option ℕ :=
  match a with
  | some n => if n = 0 then b else some n
  | none => b

/-- The three totals figures computed by `_update_totals`: exact sum of the
item amounts, VAT at 20/120 of it (half-up to 2 decimals), and their
difference quantized again. -/
def totalsValues (items : List Item) : ℚ × ℚ × ℚ :=
  let totalSum := (items.map Item.amount).foldl (· + ·) 0
  let vat := quantize2 (totalSum * 20 / 120)
  let twv := quantize2 (totalSum - vat)
  (totalSum, vat, twv)

/-- `safe_set` from `_update_totals`: write the formatted money value into the
amount column of the given (possibly shifted, possibly out-of-range) row. -/
def safeSet (t : Table) (amountCol : ℕ) (rowIdx : ℤ) (v : ℚ) : Table :=
  if 0 ≤ rowIdx ∧ rowIdx < (t.length : ℤ) then
    if amountCol < ((t.get? rowIdx.toNat).getD []).length then
      t.set rowIdx.toNat (((t.get? rowIdx.toNat).getD []).set amountCol (fmtMoney v))
    else t
  else t

/-- Model of `_update_totals`: pick the amount column (with the Python `or`
falsiness), compute the three figures and write each recorded category at its
shifted row.  The three recorded rows are pairwise distinct (a row classifies
as at most one category and only first occurrences are recorded), so applying
the writes in the fixed order total/vat/total-without-vat agrees with the
dictionary iteration order of the source. -/
def updateTotals (t : Table) (cm : ColMap) (ti : TotalsIdx) (shift : ℤ)
    (items : List Item) : Table :=
  match pyOrCol cm.amount cm.price with
  | none => t
  | some ac =>
      let v := totalsValues items
      let t := match ti.total with | some i => safeSet t ac ((i : ℤ) + shift) v.1 | none => t
      let t := match ti.vat with | some i => safeSet t ac ((i : ℤ) + shift) v.2.1 | none => t
      let t := match ti.twv with | some i => safeSet t ac ((i : ℤ) + shift) v.2.2 | none => t
      t

/-! ### The render loops and pipeline -/

/-- The insert-before-totals loop of `render_kp_docx` (Step 7, totals branch).
`s` is the sample row index, `f0` the value of `first_total_after_delete`
computed once before the loop, `k` the number of rows inserted so far and `no`
the current 1-based item number.  Each iteration clones the current sample row,
inserts it immediately before the totals row (whose physical index is now
`f0 + k`), and then — as the source does — fills the row at the stale index
`first_total_after_delete - 1`. -/
def insertFillLoop (cm : ColMap) (s f0 : ℕ) : Table → ℕ → ℕ → List Item → Table
  | t, _, _, [] => t
  | t, k, no, it :: rest =>
      let clone := (t.get? s).getD []
      let t1 := insertAt t (f0 + k) clone
      let fillIdx := f0 - 1
      let filled := fillRowCells ((t1.get? fillIdx).getD []) cm no it
      let t2 := t1.set fillIdx filled
      insertFillLoop cm s f0 t2 (k + 1) (no + 1) rest

/-- The append-at-end loop of `render_kp_docx` (no-totals branch): clone the
sample row to the end of the table and fill the appended row. -/
def appendFillLoop (cm : ColMap) (s : ℕ) : Table → ℕ → List Item → Table
  | t, _, [] => t
  | t, no, it :: rest =>
      let clone := (t.get? s).getD []
      let t1 := t ++ [clone]
      let idx := t1.length - 1
      let filled := fillRowCells ((t1.get? idx).getD []) cm no it
      let t2 := t1.set idx filled
      appendFillLoop cm s t2 (no + 1) rest

/-- Steps 3–8 of `render_kp_docx` on the goods table: header discovery, sample
row check, totals discovery, stale row deletion, the item loop and the sample
row deletion.  Returns the mutated table together with the column map, the
pre-mutation totals index, the net index shift `inserted − deleted − 1` and the
sample row index. -/
def renderStage (t : Table) (items : List Item) :
    Except String (Table × ColMap × TotalsIdx × ℤ × ℕ) :=
  match findHeaderRowAndColmap t 5 with
  | .error e => .error e
  | .ok (headerEnd, cm, _) =>
      let s := headerEnd + 1
      if t.length ≤ s then
        .error "В шаблоне найдены заголовки таблицы, но отсутствует строка-образец"
      else
        let ti := findTotalRows t s
        let deletedIdxs :=
          match firstTotal ti with
          | some f => List.range' (s + 1) (f - (s + 1))
          | none => List.range' (s + 1) (t.length - (s + 1))
        let deletedCount : ℕ := deletedIdxs.length
        let t1 := deleteRows t deletedIdxs
        let t2 :=
          match firstTotal ti with
          | some f =>
              match (if f - deletedCount < t1.length then some (f - deletedCount)
                     else firstTotal (findTotalRows t1 s)) with
              | some f0 => insertFillLoop cm s f0 t1 0 1 items
              | none => appendFillLoop cm s t1 1 items
          | none => appendFillLoop cm s t1 1 items
        let t3 := deleteRows t2 [s]
        let shift : ℤ := (items.length : ℤ) - (deletedCount : ℤ) - 1
        .ok (t3, cm, ti, shift, s)

/-- Model of `render_kp_docx` restricted to the goods table (placeholder
substitution touches no goods-table cell content relevant here, and saving is
I/O): mutate the table, then update totals when any totals row was recorded. -/
def renderGoodsTable (t : Table) (items : List Item) : Except String Table :=
  match renderStage t items with
  | .error e => .error e
  | .ok (t3, cm, ti, shift, _) =>
      .ok (if ti.values.isEmpty then t3 else updateTotals t3 cm ti shift items)

/-! ### Spreadsheet (`excel_template.py`) model

An openpyxl worksheet is modelled as a grid of optional cell values (1-based
`cell(r, c)` access returning `None` outside the stored grid); a cell value is
either a string or a number. -/

/-- A spreadsheet cell value. -/
inductive XVal
  | s (v : String)
  | f (v : ℚ)
  deriving Repr, DecidableEq

/-- A worksheet: rows of optional cell values. -/
abbrev Sheet := List (List (Option XVal))

/-- `ws.max_row`. -/
def wsMaxRow (ws : Sheet) : ℕ := ws.length

/-- `ws.max_column`. -/
def wsMaxCol (ws : Sheet) : ℕ := (ws.map List.length).foldl max 0

/-- `ws.cell(r, c).value` (1-based; `None` outside the grid). -/
def wsCell (ws : Sheet) (r c : ℕ) : Option XVal :=
  ((ws.get? (r - 1)).bind (fun row => row.get? (c - 1))).join

/-- Pad a list with a default up to length `n`. -/
def padTo (l : List (Option XVal)) (n : ℕ) : List (Option XVal) :=
  l ++ List.replicate (n - l.length) none

/-- Assign `ws.cell(r, c).value = v` (1-based), growing the grid as openpyxl
does when an unset cell is assigned. -/
def wsSetCell (ws : Sheet) (r c : ℕ) (v : Option XVal) : Sheet :=
  let ws1 := ws ++ List.replicate (r - ws.length) []
  ws1.set (r - 1) ((padTo ((ws1.get? (r - 1)).getD []) c).set (c - 1) v)

/-- `str(v)` for a cell value; numeric cells render as digits with a dot
decimal separator (no template keyword consists of such characters, which is
all the header scan needs from this model). -/
def pyStr (v : XVal) : String :=
  match v with
  | .s s => s
  | .f q => String.mk ((fmtQty q).data.map (fun c => if c = ',' then '.' else c))

/-- Model of Python's Unicode `str.isalnum` restricted to the alphabets in
play: ASCII alphanumerics plus the Cyrillic block. -/
def pyIsAlnum (c : Char) : Bool :=
  c.isAlphanum || (0x400 ≤ c.toNat && c.toNat ≤ 0x4FF)

/-- Python `str.replace("  ", " ")`: one left-to-right non-overlapping pass. -/
def collapseDouble : List Char → List Char
  | ' ' :: ' ' :: rest => ' ' :: collapseDouble rest
  | c :: rest => c :: collapseDouble rest
  | [] => []

/-- Model of `_norm` from `excel_template.py`: lowercase, strip, keep only
alphanumerics/space/underscore, then collapse double spaces once. -/
def xlsNorm (s : String) : String :=
  let kept := (pyStripL (s.data.map pyToLower)).filter
    (fun c => pyIsAlnum c || c = ' ' || c = '_')
  String.mk (collapseDouble kept)

/-- `req["name"]` of `_find_table`. -/
def xreqName : List String := ["наименование"]

/-- `req["qty"]`. -/
def xreqQty : List String := ["количество", "кол-во", "колво"]

/-- `req["unit"]`. -/
def xreqUnit : List String := ["ед", "ед.", "едизм", "ед.изм", "ед измерения"]

/-- `req["price"]`. -/
def xreqPrice : List String := ["цена"]

/-- `req["amount"]`. -/
def xreqAmount : List String := ["сумма", "итого"]

/-- The normalized texts of row `r` over columns `1..min(max_col, 60)`. -/
def rowNormed (ws : Sheet) (r : ℕ) : List String :=
  (List.range' 1 (min (wsMaxCol ws) 60)).map
    (fun c => match wsCell ws r c with
      | some v => xlsNorm (pyStr v)
      | none => "")

/-- `find_col` of `_find_table`: first 1-based column whose normalized text
contains one of the keys (and is nonempty). -/
def findColIn (normed : List String) (keys : List String) : Option ℕ :=
  (normed.enum.find? (fun p => keys.any (fun k => containsSub k p.2 && p.2 ≠ ""))).map
    (fun p => p.1 + 1)

/-- The spreadsheet column map: `_find_table` returns all five keys, `amount`
possibly `None`. -/
structure XColMap where
  name : ℕ
  qty : ℕ
  unit : ℕ
  price : ℕ
  amount : Option ℕ
  deriving Repr, DecidableEq

/-- One row's attempt of `_find_table`: succeeds when name, qty, unit and
price columns are all found in this row (`all([...])`; the 1-based indices are
never 0, so Python truthiness is definedness). -/
def findTableAt (ws : Sheet) (r : ℕ) : Option (ℕ × XColMap) :=
  let normed := rowNormed ws r
  match findColIn normed xreqName, findColIn normed xreqQty,
      findColIn normed xreqUnit, findColIn normed xreqPrice with
  | some n, some q, some u, some p => some (r, ⟨n, q, u, p, findColIn normed xreqAmount⟩)
  | _, _, _, _ => none

/-- Model of `_find_table`: scan rows `1..min(max_row, 120)`. -/
def findTable (ws : Sheet) : Except String (ℕ × XColMap) :=
  match (List.range' 1 (min (wsMaxRow ws) 120)).findSome? (findTableAt ws) with
  | some res => .ok res
  | none => .error "Не удалось найти таблицу в шаблоне Excel по заголовкам."

/-- Is this cell blank in the sense of the stale-row loop of `_write_items`
(`v is None or str(v).strip() == ""`)? -/
def cellBlank (v : Option XVal) : Bool :=
  match v with
  | none => true
  | some x => pyStrip (pyStr x) = ""

/-- Clear the mapped cells of one stale row, iterating `col_map.items()` in
dictionary order; reaching the unmapped `amount` column calls
`ws.cell(r, None)`, which raises in openpyxl — modelled as an error. -/
def clearRowCells (ws : Sheet) (r : ℕ) : List (Option ℕ) → Except String Sheet
  | [] => .ok ws
  | some c :: rest => clearRowCells (wsSetCell ws r c none) r rest
  | none :: _ => .error "TypeError: ws.cell() column is None"

/-- The stale-row clearing loop of `_write_items` (fuel-structured; the sheet's
`max_row` is unchanged by clearing, so `max_row + 1` units of fuel suffice). -/
def clearLoop (cm : XColMap) : ℕ → ℕ → Sheet → Except String Sheet
  | 0, _, ws => .ok ws
  | fuel + 1, r, ws =>
      if wsMaxRow ws < r then .ok ws
      else if cellBlank (wsCell ws r cm.name) then .ok ws
      else do
        let ws1 ← clearRowCells ws r [some cm.name, some cm.qty, some cm.unit, some cm.price, cm.amount]
        clearLoop cm fuel (r + 1) ws1

/-- Write one item's cells (`_write_items` body); the amount write is guarded
by `if col_map.get("amount"):` (Python truthiness). -/
def writeRowCells (ws : Sheet) (rr : ℕ) (cm : XColMap) (it : Item) : Sheet :=
  let ws := wsSetCell ws rr cm.name (some (.s it.name))
  let ws := wsSetCell ws rr cm.qty (some (.f it.qty))
  let ws := wsSetCell ws rr cm.unit (some (.s it.unit))
  let ws := wsSetCell ws rr cm.price (some (.f it.price))
  match cm.amount with
  | some ac => if ac = 0 then ws else wsSetCell ws rr ac (some (.f it.amount))
  | none => ws

/-- Model of `_write_items`: clear stale rows below the header up to the first
blank name cell, then write the items; returns the sheet and
`start_row + len(items)`. -/
def writeItems (ws : Sheet) (headerRow : ℕ) (cm : XColMap) (items : List Item) :
    Except String (Sheet × ℕ) := do
  let startRow := headerRow + 1
  let ws1 ← clearLoop cm (wsMaxRow ws + 1) startRow ws
  let ws2 := items.enum.foldl (fun ws p => writeRowCells ws (startRow + p.1) cm p.2) ws1
  return (ws2, startRow + items.length)

/-- The exact-match totals keywords of the spreadsheet `_update_totals`. -/
def xlsIsTotalKeyword (t : String) : Bool :=
  t = "итого" || t = "всего" || t = "итого:" || t = "всего:"

/-- Model of the spreadsheet `_update_totals`: choose the amount column with
Python `or` falsiness, find the first keyword row in the window and write the
float total there. -/
def xlsUpdateTotals (ws : Sheet) (afterRow : ℕ) (cm : XColMap) (items : List Item) : Sheet :=
  let total := (items.map Item.amount).foldl (· + ·) 0
  let amountCol :=
    match cm.amount with
    | some a => if a = 0 then cm.price else a
    | none => cm.price
  let hit := (List.range' afterRow (min (wsMaxRow ws) (afterRow + 60) - afterRow)).find?
    (fun r =>
      match wsCell ws r cm.name with
      | some (.s left) => xlsIsTotalKeyword ((pyStrip left).map pyToLower)
      | _ => false)
  match hit with
  | some r => wsSetCell ws r amountCol (some (.f total))
  | none => ws

/-- Model of `render_kp` with a template: find the table, write the items,
update the totals (placeholder substitution and saving elided as before). -/
def renderKpSheet (ws : Sheet) (items : List Item) : Except String Sheet := do
  let (headerRow, cm) ← findTable ws
  let (ws2, afterRow) ← writeItems ws headerRow cm items
  return xlsUpdateTotals ws2 afterRow cm items

/-! ### Pricing (`pricing.py`) model -/

/-- Model of `kp_generator.models.VariantSettings` (the pricing-relevant
fields). -/
structure VariantSettings where
  percent_up : ℚ
  fixed_add : ℚ
  random_spread : ℚ
  rounding_step : ℚ
  deriving Repr, DecidableEq

/-- Model of `_round_to_step`: round `value` to the nearest multiple of `step`
(half-up), requantized to 2 decimals; non-positive steps leave the value
unchanged. -/
def roundToStep (value step : ℚ) : ℚ :=
  if step ≤ 0 then value
  else quantize2 ((roundHalfUpInt (value / step) : ℚ) * step)

/-- The price `apply_pricing` computes before clamping: percent markup, fixed
add-on and (when the spread is positive) the random delta for this item. -/
def adjustedPrice (st : VariantSettings) (rng : ℕ → ℚ) (i : ℕ) (p : ℚ) : ℚ :=
  let base := p * (1 + st.percent_up / 100) + st.fixed_add
  if 0 < st.random_spread then base + rng i else base

/-- The loop body of `apply_pricing` from item index `i` on.  The random
source is modelled as the stream `rng` of deltas that
`Decimal(str(rng.uniform(-spread, spread)))` yields per item. -/
def applyPricingAux (st : VariantSettings) (rng : ℕ → ℚ) : ℕ → List Item → List Item
  | _, [] => []
  | i, it :: rest =>
      let base := max (adjustedPrice st rng i it.price) (1 / 100)
      let priceNew := roundToStep base st.rounding_step
      let amountNew := quantize2 (priceNew * it.qty)
      { name := it.name, qty := it.qty, unit := it.unit,
        price := priceNew, amount := amountNew } :: applyPricingAux st rng (i + 1) rest

/-- Model of `apply_pricing`: build a fresh list of repriced items (the input
list is read only; the embedding is pure, as the source never mutates its
input items). -/
def applyPricing (items : List Item) (st : VariantSettings) (rng : ℕ → ℚ) : List Item :=
  applyPricingAux st rng 0 items

/-! ### Helper lemmas: row mutation primitives -/

theorem removeIdx_length {t : Table} {i : ℕ} (h : i < t.length) :
    (removeIdx t i).length = t.length - 1 := by
  simp only [removeIdx, if_pos h, List.length_append, List.length_take, List.length_drop]
  omega

theorem removeIdx_get?_lt {t : Table} {i j : ℕ} (h : j < i) :
    (removeIdx t i).get? j = t.get? j := by
  unfold removeIdx
  by_cases hi : i < t.length
  · rw [if_pos hi, List.get?_append (by simp; omega), List.get?_take h]
  · rw [if_neg hi]

theorem removeIdx_get?_ge {t : Table} {i j : ℕ} (hi : i < t.length) (h : i ≤ j) :
    (removeIdx t i).get? j = t.get? (j + 1) := by
  unfold removeIdx
  rw [if_pos hi, List.get?_append_right (by simp; omega), List.get?_drop]
  congr 1
  simp only [List.length_take]
  omega

theorem insertAt_length (t : Table) (i : ℕ) (r : Row) :
    (insertAt t i r).length = t.length + 1 := by
  simp only [insertAt, List.length_append, List.length_take, List.length_cons,
    List.length_drop]
  omega

theorem insertAt_get?_lt {t : Table} {i j : ℕ} (r : Row) (hij : j < i) (hj : j < t.length) :
    (insertAt t i r).get? j = t.get? j := by
  rw [insertAt, List.get?_append (by simp; omega), List.get?_take hij]

theorem insertAt_get?_gt {t : Table} {i j : ℕ} (r : Row) (hij : i < j) (hi : i ≤ t.length) :
    (insertAt t i r).get? j = t.get? (j - 1) := by
  rw [insertAt, List.get?_append_right (by simp; omega)]
  have hlen : (List.take i t).length = i := by simp; omega
  rw [hlen]
  have : j - i = (j - i - 1) + 1 := by omega
  rw [this, List.get?_cons_succ, List.get?_drop]
  congr 1
  omega

/-! ### Helper lemmas: `deleteRows` over index ranges -/

theorem insertDesc_of_forall_lt {i : ℕ} {acc : List ℕ} (h : ∀ j ∈ acc, j < i) :
    insertDesc i acc = i :: acc := by
  cases acc with
  | nil => rfl
  | cons j js =>
      have := h j (by simp)
      simp [insertDesc, this]

theorem sortDescDedup_range' (a m : ℕ) :
    sortDescDedup (List.range' a m) = (List.range' a m).reverse := by
  induction m with
  | zero => rfl
  | succ m ih =>
      rw [List.range'_1_concat, sortDescDedup, List.foldl_append]
      have : List.foldl (fun acc i => insertDesc i acc) [] (List.range' a m)
          = (List.range' a m).reverse := ih
      rw [this]
      simp only [List.foldl_cons, List.foldl_nil]
      rw [insertDesc_of_forall_lt (by
        intro j hj
        rw [List.mem_reverse, List.mem_range'_1] at hj
        omega)]
      rw [List.reverse_append]
      rfl

theorem deleteRows_range'_step (t : Table) (a m : ℕ) :
    deleteRows t (List.range' a (m + 1)) =
      deleteRows (removeIdx t (a + m)) (List.range' a m) := by
  unfold deleteRows
  rw [sortDescDedup_range', sortDescDedup_range', List.range'_1_concat,
    List.reverse_append]
  rfl

theorem deleteRows_single (t : Table) (i : ℕ) :
    deleteRows t [i] = removeIdx t i := rfl

theorem deleteRows_range'_length {t : Table} {a m : ℕ} (h : a + m ≤ t.length) :
    (deleteRows t (List.range' a m)).length = t.length - m := by
  induction m generalizing t with
  | zero => simp [deleteRows, sortDescDedup]
  | succ m ih =>
      rw [deleteRows_range'_step]
      have hrm : a + m < t.length := by omega
      rw [ih (by rw [removeIdx_length hrm]; omega), removeIdx_length hrm]
      omega

theorem deleteRows_range'_get? {t : Table} {a m p : ℕ} (hp : a + m ≤ p)
    (hlen : a + m ≤ t.length) :
    (deleteRows t (List.range' a m)).get? (p - m) = t.get? p := by
  induction m generalizing t p with
  | zero => simp [deleteRows, sortDescDedup]
  | succ m ih =>
      rw [deleteRows_range'_step]
      have hrm : a + m < t.length := by omega
      have h1 : (removeIdx t (a + m)).get? (p - 1) = t.get? p := by
        have : p - 1 + 1 = p := by omega
        rw [← this] at *
        exact removeIdx_get?_ge hrm (by omega)
      have h2 := ih (t := removeIdx t (a + m)) (p := p - 1)
        (by omega) (by rw [removeIdx_length hrm]; omega)
      rw [show p - (m + 1) = p - 1 - m by omega, h2, h1]

theorem deleteRows_range'_get?_lt {t : Table} {a m j : ℕ} (hj : j < a) :
    (deleteRows t (List.range' a m)).get? j = t.get? j := by
  induction m generalizing t with
  | zero => simp [deleteRows, sortDescDedup]
  | succ m ih =>
      rw [deleteRows_range'_step, ih, removeIdx_get?_lt (by omega)]

theorem deleteRows_range'_suffix {t : Table} {a : ℕ} (h : a ≤ t.length) :
    deleteRows t (List.range' a (t.length - a)) = t.take a := by
  have hlen : (deleteRows t (List.range' a (t.length - a))).length = a := by
    rw [deleteRows_range'_length (by omega)]; omega
  apply List.ext
  intro j
  by_cases hj : j < a
  · rw [deleteRows_range'_get?_lt hj, List.get?_take hj]
  · rw [List.get?_eq_none.2 (by omega), List.get?_eq_none.2 (by simp; omega)]

/-! ### Helper lemmas: the two fill loops -/

theorem insertFillLoop_length (cm : ColMap) (s f0 : ℕ) :
    ∀ (items : List Item) (t : Table) (k no : ℕ),
      (insertFillLoop cm s f0 t k no items).length = t.length + items.length := by
  intro items
  induction items with
  | nil => intro t k no; simp [insertFillLoop]
  | cons it rest ih =>
      intro t k no
      rw [insertFillLoop, ih]
      simp [List.length_set, insertAt_length]
      omega

theorem insertFillLoop_get?_tracked (cm : ColMap) (s f0 : ℕ) :
    ∀ (items : List Item) (t : Table) (k no q : ℕ), f0 + k ≤ q → f0 + k ≤ t.length →
      (insertFillLoop cm s f0 t k no items).get? (q + items.length) = t.get? q := by
  intro items
  induction items with
  | nil => intro t k no q _ _; simp [insertFillLoop]
  | cons it rest ih =>
      intro t k no q hq ht
      rw [insertFillLoop]
      have hlen : q + (it :: rest).length = (q + 1) + rest.length := by
        simp; omega
      rw [hlen, ih _ _ _ (q + 1) (by omega)
        (by simp only [List.length_set, insertAt_length]; omega)]
      rw [List.get?_set_ne _ _ (by omega)]
      exact insertAt_get?_gt _ (by omega) ht

theorem appendFillLoop_length (cm : ColMap) (s : ℕ) :
    ∀ (items : List Item) (t : Table) (no : ℕ),
      (appendFillLoop cm s t no items).length = t.length + items.length := by
  intro items
  induction items with
  | nil => intro t no; simp [appendFillLoop]
  | cons it rest ih =>
      intro t no
      rw [appendFillLoop, ih]
      simp
      omega

theorem appendFillLoop_get?_lt (cm : ColMap) (s : ℕ) :
    ∀ (items : List Item) (t : Table) (no q : ℕ), q < t.length →
      (appendFillLoop cm s t no items).get? q = t.get? q := by
  intro items
  induction items with
  | nil => intro t no q _; simp [appendFillLoop]
  | cons it rest ih =>
      intro t no q hq
      rw [appendFillLoop, ih _ _ _ (by simp [List.length_set]; omega)]
      rw [List.get?_set_ne _ _ (by simp [List.length_append]; omega)]
      exact List.get?_append hq

/-! ### Helper lemmas: totals discovery -/

theorem recordTotal_values_subset {ti : TotalsIdx} {ty : TotalType} {i p : ℕ}
    (h : p ∈ (recordTotal ti ty i).values) : p ∈ ti.values ∨ p = i := by
  obtain ⟨a, b, c⟩ := ti
  cases ty <;> cases a <;> cases b <;> cases c <;>
    simp [recordTotal, TotalsIdx.values] at h ⊢ <;> tauto

theorem totalRowStep_values_subset {ti : TotalsIdx} {p : ℕ × Row} {q : ℕ}
    (h : q ∈ (totalRowStep ti p).values) : q ∈ ti.values ∨ q = p.1 := by
  unfold totalRowStep at h
  split at h
  · exact Or.inl h
  · split at h
    · exact recordTotal_values_subset h
    · exact Or.inl h

theorem foldl_totalRowStep_bounds {L : List (ℕ × Row)} {lo hi : ℕ}
    (hL : ∀ x ∈ L, lo ≤ x.1 ∧ x.1 < hi) :
    ∀ {ti : TotalsIdx}, (∀ q ∈ ti.values, lo ≤ q ∧ q < hi) →
      ∀ q ∈ (L.foldl totalRowStep ti).values, lo ≤ q ∧ q < hi := by
  induction L with
  | nil => intro ti hti q hq; exact hti q hq
  | cons x xs ih =>
      intro ti hti q hq
      refine ih (fun y hy => hL y (by simp [hy])) ?_ q hq
      intro r hr
      rcases totalRowStep_values_subset hr with h | h
      · exact hti r h
      · subst h; exact hL x (by simp)

theorem findTotalRows_values_bounds {t : Table} {start q : ℕ}
    (h : q ∈ (findTotalRows t start).values) : start ≤ q ∧ q < t.length := by
  refine foldl_totalRowStep_bounds ?_ ?_ q h
  · intro x hx
    have := List.mem_enumFrom hx
    have hb := this.2.1
    constructor
    · exact this.1
    · by_cases hst : start ≤ t.length
      · simpa [List.length_drop] using lt_of_lt_of_le hb (by simp [List.length_drop]; omega)
      · have : t.drop start = [] := List.drop_eq_nil_of_le (by omega)
        rw [this] at hx
        simp at hx
  · intro q hq
    simp [TotalsIdx.values] at hq

theorem foldl_min_mem : ∀ (xs : List ℕ) (x : ℕ), xs.foldl min x ∈ x :: xs := by
  intro xs
  induction xs with
  | nil => intro x; simp
  | cons y ys ih =>
      intro x
      rw [List.foldl_cons]
      rcases List.mem_cons.1 (ih (min x y)) with h | h
      · rw [h]
        rcases Nat.le_total x y with hxy | hxy
        · rw [Nat.min_eq_left hxy]; exact List.mem_cons_self _ _
        · rw [Nat.min_eq_right hxy]
          exact List.mem_cons_of_mem _ (List.mem_cons_self _ _)
      · exact List.mem_cons_of_mem _ (List.mem_cons_of_mem _ h)

theorem foldl_min_le : ∀ (xs : List ℕ) (x : ℕ),
    xs.foldl min x ≤ x ∧ ∀ p ∈ xs, xs.foldl min x ≤ p := by
  intro xs
  induction xs with
  | nil => intro x; simp
  | cons y ys ih =>
      intro x
      have h := ih (min x y)
      refine ⟨le_trans h.1 (Nat.min_le_left _ _), ?_⟩
      intro p hp
      rcases List.mem_cons.1 hp with rfl | hp
      · exact le_trans h.1 (Nat.min_le_right _ _)
      · exact h.2 p hp

theorem firstTotal_mem {ti : TotalsIdx} {f : ℕ} (h : firstTotal ti = some f) :
    f ∈ ti.values := by
  unfold firstTotal at h
  split at h
  · exact absurd h (by simp)
  · next x xs heq =>
      rw [heq]
      have hmem := foldl_min_mem xs x
      rw [Option.some_inj.1 h] at hmem
      exact hmem

theorem firstTotal_le {ti : TotalsIdx} {f : ℕ} (h : firstTotal ti = some f) :
    ∀ p ∈ ti.values, f ≤ p := by
  unfold firstTotal at h
  split at h
  · next heq => intro p hp; rw [heq] at hp; simp at hp
  · next x xs heq =>
      intro p hp
      rw [heq] at hp
      rcases List.mem_cons.1 hp with rfl | hp
      · rw [← Option.some_inj.1 h]; exact (foldl_min_le xs p).1
      · rw [← Option.some_inj.1 h]; exact (foldl_min_le xs x).2 p hp

theorem firstTotal_isSome_iff {ti : TotalsIdx} :
    (firstTotal ti).isSome ↔ ti.values ≠ [] := by
  unfold firstTotal
  split <;> simp_all

/-! ### Helper lemmas: totals update -/

theorem safeSet_length (t : Table) (ac : ℕ) (i : ℤ) (v : ℚ) :
    (safeSet t ac i v).length = t.length := by
  unfold safeSet
  split
  · split
    · exact List.length_set ..
    · rfl
  · rfl

theorem updateTotals_length (t : Table) (cm : ColMap) (ti : TotalsIdx) (shift : ℤ)
    (items : List Item) : (updateTotals t cm ti shift items).length = t.length := by
  unfold updateTotals
  split
  · rfl
  · cases ti.total <;> cases ti.vat <;> cases ti.twv <;> simp [safeSet_length]

/-! ### The execution path of `renderStage` -/

theorem renderStage_totals_eq {t : Table} {items : List Item} {he hs f : ℕ} {cm : ColMap}
    (hfind : findHeaderRowAndColmap t 5 = .ok (he, cm, hs))
    (hsam : he + 1 < t.length)
    (hft : firstTotal (findTotalRows t (he + 1)) = some f)
    (hsf : he + 1 < f) :
    renderStage t items =
      .ok (removeIdx
             (insertFillLoop cm (he + 1) (he + 1 + 1)
               (deleteRows t (List.range' (he + 1 + 1) (f - (he + 1 + 1)))) 0 1 items)
             (he + 1),
           cm, findTotalRows t (he + 1),
           (items.length : ℤ) - ((f - (he + 1 + 1) : ℕ) : ℤ) - 1, he + 1) := by
  have hflen : f < t.length := (findTotalRows_values_bounds (firstTotal_mem hft)).2
  have h1 : ¬ (t.length ≤ he + 1) := by omega
  have hlen1 : (deleteRows t (List.range' (he + 1 + 1) (f - (he + 1 + 1)))).length
      = t.length - (f - (he + 1 + 1)) :=
    deleteRows_range'_length (by omega)
  have hcond : f - (List.range' (he + 1 + 1) (f - (he + 1 + 1))).length <
      (deleteRows t (List.range' (he + 1 + 1) (f - (he + 1 + 1)))).length := by
    simp only [List.length_range']
    rw [hlen1]
    omega
  unfold renderStage
  rw [hfind]
  dsimp only
  rw [if_neg h1, hft]
  dsimp only
  rw [if_pos hcond, deleteRows_single]
  simp only [List.length_range']
  rw [show f - (f - (he + 1 + 1)) = he + 1 + 1 from by omega]

theorem renderStage_noTotals_eq {t : Table} {items : List Item} {he hs : ℕ} {cm : ColMap}
    (hfind : findHeaderRowAndColmap t 5 = .ok (he, cm, hs))
    (hsam : he + 1 < t.length)
    (hnone : findTotalRows t (he + 1) = {}) :
    renderStage t items =
      .ok (removeIdx (appendFillLoop cm (he + 1) (t.take (he + 1 + 1)) 1 items) (he + 1),
           cm, {},
           (items.length : ℤ) - ((t.length - (he + 1 + 1) : ℕ) : ℤ) - 1, he + 1) := by
  have h1 : ¬ (t.length ≤ he + 1) := by omega
  unfold renderStage
  rw [hfind]
  dsimp only
  rw [if_neg h1, hnone]
  have hfe : firstTotal {} = none := rfl
  rw [hfe]
  dsimp only
  rw [deleteRows_single]
  simp only [List.length_range']
  rw [show t.length - (he + 1 + 1) = t.length - (he + 1 + 1) from rfl,
    deleteRows_range'_suffix (t := t) (a := he + 1 + 1) (by omega)]

/-! ### Claim C2: the row-count invariant -/

/-- C2: for every template whose goods table has a totals row strictly after
the sample row and `M = f − s − 1` stale rows strictly between the sample row
`s = headerEnd + 1` and the first totals row `f`, rendering `N` items yields a
table of `original − M − 1 + N` rows. -/
theorem C2_row_count_invariant {t : Table} {items : List Item} {he hs f : ℕ} {cm : ColMap}
    (hfind : findHeaderRowAndColmap t 5 = .ok (he, cm, hs))
    (hsam : he + 1 < t.length)
    (hft : firstTotal (findTotalRows t (he + 1)) = some f)
    (hsf : he + 1 < f) :
    ∃ out, renderGoodsTable t items = .ok out ∧
      out.length = t.length - (f - (he + 1) - 1) - 1 + items.length := by
  have hflen : f < t.length := (findTotalRows_values_bounds (firstTotal_mem hft)).2
  have hstage := @renderStage_totals_eq t items _ _ _ _ hfind hsam hft hsf
  have hne : (findTotalRows t (he + 1)).values ≠ [] := by
    apply firstTotal_isSome_iff.1
    rw [hft]
    rfl
  have hout : renderGoodsTable t items =
      .ok (updateTotals
        (removeIdx
          (insertFillLoop cm (he + 1) (he + 1 + 1)
            (deleteRows t (List.range' (he + 1 + 1) (f - (he + 1 + 1)))) 0 1 items)
          (he + 1))
        cm (findTotalRows t (he + 1))
        ((items.length : ℤ) - ((f - (he + 1 + 1) : ℕ) : ℤ) - 1) items) := by
    unfold renderGoodsTable
    rw [hstage]
    dsimp only
    rw [if_neg (by simpa using hne)]
  refine ⟨_, hout, ?_⟩
  rw [updateTotals_length]
  have hM : (deleteRows t (List.range' (he + 1 + 1) (f - (he + 1 + 1)))).length
      = t.length - (f - (he + 1 + 1)) := deleteRows_range'_length (by omega)
  have hil := insertFillLoop_length cm (he + 1) (he + 1 + 1) items
    (deleteRows t (List.range' (he + 1 + 1) (f - (he + 1 + 1)))) 0 1
  rw [removeIdx_length (by rw [hil, hM]; omega), hil, hM]
  omega

/-! ### Claim C3: the net index shift -/

/-- C3: with all deletions and insertions strictly between the sample row and
the totals block (the first totals row lies strictly after the sample row),
the net shift `inserted − deleted − 1` applied to any row position recorded in
the pre-mutation TotalsIndex yields that row's true post-mutation position:
the mutated table holds the original row there. -/
theorem C3_totals_shift_correct {t : Table} {items : List Item} {he hs f p : ℕ} {cm : ColMap}
    (hfind : findHeaderRowAndColmap t 5 = .ok (he, cm, hs))
    (hsam : he + 1 < t.length)
    (hft : firstTotal (findTotalRows t (he + 1)) = some f)
    (hsf : he + 1 < f)
    (hp : p ∈ (findTotalRows t (he + 1)).values) :
    ∃ t' shift, renderStage t items = .ok (t', cm, findTotalRows t (he + 1), shift, he + 1) ∧
      shift = (items.length : ℤ) - ((f - (he + 1) - 1 : ℕ) : ℤ) - 1 ∧
      0 ≤ (p : ℤ) + shift ∧
      t'.get? ((p : ℤ) + shift).toNat = t.get? p := by
  have hbounds := findTotalRows_values_bounds hp
  have hfp : f ≤ p := firstTotal_le hft p hp
  have hflen : f < t.length := (findTotalRows_values_bounds (firstTotal_mem hft)).2
  have hstage := @renderStage_totals_eq t items _ _ _ _ hfind hsam hft hsf
  set s := he + 1 with hs_def
  set M := f - (s + 1) with hM_def
  set N := items.length with hN_def
  have hMlen : (deleteRows t (List.range' (s + 1) M)).length = t.length - M :=
    deleteRows_range'_length (by omega)
  refine ⟨_, _, hstage, by omega, by omega, ?_⟩
  have step1 : (deleteRows t (List.range' (s + 1) M)).get? (p - M) = t.get? p :=
    deleteRows_range'_get? (by omega) (by omega)
  have step2 : (insertFillLoop cm s (s + 1)
      (deleteRows t (List.range' (s + 1) M)) 0 1 items).get? ((p - M) + N) =
      (deleteRows t (List.range' (s + 1) M)).get? (p - M) :=
    insertFillLoop_get?_tracked cm s (s + 1) items _ 0 1 (p - M) (by omega) (by omega)
  have hillen := insertFillLoop_length cm s (s + 1) items
    (deleteRows t (List.range' (s + 1) M)) 0 1
  have step3 : (removeIdx (insertFillLoop cm s (s + 1)
      (deleteRows t (List.range' (s + 1) M)) 0 1 items) s).get? (p - M + N - 1) =
      (insertFillLoop cm s (s + 1)
        (deleteRows t (List.range' (s + 1) M)) 0 1 items).get? (p - M + N) := by
    have := removeIdx_get?_ge (t := insertFillLoop cm s (s + 1)
        (deleteRows t (List.range' (s + 1) M)) 0 1 items) (i := s) (j := p - M + N - 1)
      (by rw [hillen, hMlen]; omega) (by omega)
    rw [this]
    congr 1
    omega
  have htoNat : ((p : ℤ) + ((N : ℤ) - (M : ℤ) - 1)).toNat = p - M + N - 1 := by omega
  rw [htoNat, step3, step2, step1]

/-! ### Claim C8: the no-totals append path -/

/-- The sequence of rows produced by cloning `row` once per item and filling
each clone with the corresponding item under `no`-based numbering (the
declarative description of the append loop). -/
def fillSeq (row : Row) (cm : ColMap) : ℕ → List Item → List Row
  | _, [] => []
  | no, it :: rest => fillRowCells row cm no it :: fillSeq row cm (no + 1) rest

theorem set_concat_last {α : Type} (t : List α) (x y : α) :
    (t ++ [x]).set t.length y = t ++ [y] := by
  induction t with
  | nil => rfl
  | cons a tl ih => simp [List.set, ih]

theorem appendFillLoop_eq_fillSeq (cm : ColMap) (s : ℕ) :
    ∀ (items : List Item) (t : Table) (no : ℕ), s < t.length →
      appendFillLoop cm s t no items = t ++ fillSeq ((t.get? s).getD []) cm no items := by
  intro items
  induction items with
  | nil => intro t no _; simp [appendFillLoop, fillSeq]
  | cons it rest ih =>
      intro t no hst
      rw [appendFillLoop]
      have hidx : (t ++ [(t.get? s).getD []]).length - 1 = t.length := by simp
      rw [hidx]
      have hget : ((t ++ [(t.get? s).getD []]).get? t.length).getD []
          = (t.get? s).getD [] := by
        rw [List.get?_concat_length]
        rfl
      rw [hget, set_concat_last]
      rw [ih _ _ (by simp; omega)]
      have hsame : ((t ++ [fillRowCells ((t.get? s).getD []) cm no it]).get? s).getD []
          = (t.get? s).getD [] := by
        rw [List.get?_append hst]
      rw [hsame, fillSeq]
      simp

/-- C8: for a template whose goods table has no totals row at all, rendering a
(non-empty) item list succeeds; the output is the retained header rows followed
by one clone of the sample row per item, each filled by `_fill_row_cells` with
its item under 1-based numbering, and no totals write is attempted (the table
is exactly this append result).  The second conjunct locates the `j`-th item
row at position `headerEnd + 1 + j`. -/
theorem C8_no_totals_append {t : Table} {items : List Item} {he hs : ℕ} {cm : ColMap}
    (hfind : findHeaderRowAndColmap t 5 = .ok (he, cm, hs))
    (hsam : he + 1 < t.length)
    (hnone : findTotalRows t (he + 1) = {})
    (_hne : items ≠ []) :
    renderGoodsTable t items =
      .ok (t.take (he + 1) ++ fillSeq ((t.get? (he + 1)).getD []) cm 1 items) ∧
    ∀ j it, items.get? j = some it →
      (t.take (he + 1) ++ fillSeq ((t.get? (he + 1)).getD []) cm 1 items).get?
          (he + 1 + j) =
        some (fillRowCells ((t.get? (he + 1)).getD []) cm (1 + j) it) := by
  have hstage := @renderStage_noTotals_eq t items _ _ _ hfind hsam hnone
  have htake : (t.take (he + 1 + 1)).length = he + 1 + 1 := by simp; omega
  have happ := appendFillLoop_eq_fillSeq cm (he + 1) items (t.take (he + 1 + 1)) 1
    (by omega)
  have hsample : ((t.take (he + 1 + 1)).get? (he + 1)).getD [] = (t.get? (he + 1)).getD []
      := by rw [List.get?_take (by omega)]
  constructor
  · unfold renderGoodsTable
    rw [hstage]
    dsimp only
    have hemp : (({ total := none, vat := none, twv := none } : TotalsIdx)).values.isEmpty
        = true := rfl
    rw [if_pos hemp]
    congr 1
    rw [happ, hsample]
    unfold removeIdx
    rw [if_pos (by simp [htake]; omega)]
    rw [List.take_append_of_le_length (by omega), List.drop_append_of_le_length (by omega)]
    rw [List.take_take, Nat.min_eq_left (by omega), List.drop_eq_nil_of_le (by omega)]
    simp
  · intro j it hj
    have hjlen : j < items.length := by
      by_contra hcon
      rw [List.get?_eq_none.2 (by omega)] at hj
      exact Option.noConfusion hj
    have hfl : ∀ (its : List Item) (no j : ℕ) (it : Item), its.get? j = some it →
        (fillSeq ((t.get? (he + 1)).getD []) cm no its).get? j =
          some (fillRowCells ((t.get? (he + 1)).getD []) cm (no + j) it) := by
      intro its
      induction its with
      | nil => intro no j it h; simp at h
      | cons a rest ih =>
          intro no j it h
          cases j with
          | zero =>
              simp at h
              subst h
              simp [fillSeq]
          | succ j =>
              rw [List.get?_cons_succ] at h
              rw [fillSeq, List.get?_cons_succ, ih _ _ _ h]
              congr 2
              omega
    rw [List.get?_append_right (by simp only [List.length_take]; omega)]
    have hidx : he + 1 + j - (t.take (he + 1)).length = j := by
      simp only [List.length_take]
      omega
    rw [hidx, hfl items 1 j it hj]

/-! ### Concrete templates used by the code-bug theorems and witnesses -/

/-- A minimal goods table: one header row binding name/qty/price/amount, one
sample row, one grand-total row. -/
def exT1 : Table :=
  [["наименование", "кол-во", "цена", "сумма"],
   ["S1", "S2", "S3", "S4"],
   ["итого", "", "", ""]]

/-- The same template with one stale data row between sample and totals. -/
def exT3 : Table :=
  [["наименование", "кол-во", "цена", "сумма"],
   ["S1", "S2", "S3", "S4"],
   ["X1", "X2", "X3", "X4"],
   ["итого", "", "", ""]]

/-- The same template with no totals row. -/
def exT2 : Table :=
  [["наименование", "кол-во", "цена", "сумма"],
   ["S1", "S2", "S3", "S4"]]

/-- A single line item. -/
def exI1 : Item := ⟨"Товар1", 2, "шт", 100, 200⟩

/-- The column map discovered in `exT1`/`exT2`/`exT3`. -/
def exCm1 : ColMap := ⟨some 0, some 1, none, some 2, some 3⟩

/-! ### Claim C1: which row receives the item values (code bug) -/

set_option maxRecDepth 400000 in
/-- C1 (code bug): rendering one item against `exT1` leaves the template's
sample-row text `"S1" … "S4"` as the single item row of the output — the loop
computes `inserted_row_idx = first_total_after_delete - 1`, which is the sample
row's own index, so the item values are written into the sample row (deleted
afterwards) and never into the inserted clone.  The claim's prediction — the
first item row holds the item's name (`"Товар1"`) in the name column — fails:
that cell holds `"S1"`. -/
theorem C1_item_row_fill_bug :
    renderGoodsTable exT1 [exI1] =
      .ok [["наименование", "кол-во", "цена", "сумма"],
           ["S1", "S2", "S3", "S4"],
           ["итого", "", "", fmtMoney (totalsValues [exI1]).1]] ∧
    exI1.name = "Товар1" ∧ ("S1" : String) ≠ "Товар1" :=
  ⟨rfl, rfl, by decide⟩

/-! ### Claim C7: amount column at position 0 (code bug) -/

set_option maxRecDepth 400000 in
/-- C7 (code bug): with the amount role mapped to column 0 (and unit price to
column 3), `_update_totals` evaluates `col_map.get("amount") or
col_map.get("price")` — Python treats the mapped column 0 as falsy — and so
writes the grand total into the unit-price column 3, leaving column 0
untouched, contrary to the claim that a mapped amount column is always used. -/
theorem C7_amount_column_zero_bug :
    updateTotals [["итого", "", "", ""]] ⟨some 1, some 2, none, some 3, some 0⟩
        ⟨some 0, none, none⟩ 0 [exI1] =
      [["итого", "", "", fmtMoney (totalsValues [exI1]).1]] ∧
    pyOrCol (some 0) (some 3) = some 3 :=
  ⟨rfl, rfl⟩

/-! ### Witnesses for C2, C3, C8 -/

set_option maxRecDepth 400000 in
theorem C2_row_count_invariant_witness :
    ∃ out, renderGoodsTable exT3 [exI1] = .ok out ∧
      out.length = exT3.length - (3 - (0 + 1) - 1) - 1 + ([exI1] : List Item).length :=
  C2_row_count_invariant rfl (by decide) rfl (by decide)

set_option maxRecDepth 400000 in
theorem C3_totals_shift_correct_witness :
    ∃ t' shift,
      renderStage exT3 [exI1] = .ok (t', exCm1, findTotalRows exT3 (0 + 1), shift, 0 + 1) ∧
      shift = (([exI1] : List Item).length : ℤ) - ((3 - (0 + 1) - 1 : ℕ) : ℤ) - 1 ∧
      0 ≤ ((3 : ℕ) : ℤ) + shift ∧
      t'.get? (((3 : ℕ) : ℤ) + shift).toNat = exT3.get? 3 :=
  C3_totals_shift_correct (p := 3) rfl (by decide) rfl (by decide) (by decide)

set_option maxRecDepth 400000 in
theorem C8_no_totals_append_witness :
    renderGoodsTable exT2 [exI1] =
      .ok (exT2.take (0 + 1) ++ fillSeq ((exT2.get? (0 + 1)).getD []) exCm1 1 [exI1]) ∧
    ∀ j it, ([exI1] : List Item).get? j = some it →
      (exT2.take (0 + 1) ++ fillSeq ((exT2.get? (0 + 1)).getD []) exCm1 1 [exI1]).get?
          (0 + 1 + j) =
        some (fillRowCells ((exT2.get? (0 + 1)).getD []) exCm1 (1 + j) it) :=
  C8_no_totals_append rfl (by decide) rfl (by decide)

/-! ### Claim C10: spreadsheet template without an amount column (code bug) -/

/-- A spreadsheet template whose header binds name/qty/unit/price but has no
amount keyword, with one stale item row below the header. -/
def exWs : Sheet :=
  [[some (.s "Наименование"), some (.s "Количество"), some (.s "Ед."), some (.s "Цена")],
   [some (.s "Старый товар"), some (.f 1), some (.s "шт"), some (.f 10)]]

set_option maxRecDepth 400000 in
/-- C10 (code bug): `_find_table` accepts the template and maps `amount` to
`None`, but the stale-row clearing loop of `_write_items` iterates
`col_map.items()` — including `("amount", None)` — and calls
`ws.cell(r, None)`, which raises, so rendering fails instead of succeeding as
the claim states.  (The item-writing loop guards the amount write with
`if col_map.get("amount"):`, showing the no-amount template was meant to be
supported.) -/
theorem C10_missing_amount_clear_crash :
    findTable exWs = .ok (1, ⟨1, 2, 3, 4, none⟩) ∧
    writeItems exWs 1 ⟨1, 2, 3, 4, none⟩ [exI1] =
      .error "TypeError: ws.cell() column is None" ∧
    renderKpSheet exWs [exI1] = .error "TypeError: ws.cell() column is None" :=
  ⟨rfl, rfl, rfl⟩

/-! ### The header scan as a first-match search (for C5 and C6)

The nested row/cell loops of `_find_header_row_and_colmap` are flattened into
the list of scanned `(row, column, text)` triples; each role is then proved to
be bound at its first matching triple in scan order. -/

/-- The `(row, column, cellText)` triples scanned by the header loop, in scan
order. -/
def flatCells (t : Table) (w : ℕ) : List (ℕ × ℕ × String) :=
  (t.take w).enum.flatMap (fun p => p.2.enum.map (fun q => (p.1, q.1, q.2)))

/-- `scanCell` uncurried over a scanned triple. -/
def scanCellP (st : ScanState) (x : ℕ × ℕ × String) : ScanState :=
  scanCell x.1 x.2.1 x.2.2 st

/-- Does the triple's text match one of the synonyms? -/
def matchesCell (syns : List String) (x : ℕ × ℕ × String) : Bool :=
  cellMatches syns (normalizeText x.2.2)

/-- Column of the first matching triple. -/
def firstMatchCol (L : List (ℕ × ℕ × String)) (syns : List String) : Option ℕ :=
  (L.find? (matchesCell syns)).map (fun x => x.2.1)

/-- Row of the first matching triple. -/
def firstMatchRow (L : List (ℕ × ℕ × String)) (syns : List String) : Option ℕ :=
  (L.find? (matchesCell syns)).map (fun x => x.1)

/-- Left-biased choice on optional columns. -/
def orO (a b : Option ℕ) : Option ℕ :=
  match a with
  | some x => some x
  | none => b

theorem cellMatches_name_empty : cellMatches synName "" = false := by decide

theorem cellMatches_qty_empty : cellMatches synQty "" = false := by decide

theorem cellMatches_unit_empty : cellMatches synUnit "" = false := by decide

theorem cellMatches_price_empty : cellMatches synPrice "" = false := by decide

theorem cellMatches_amount_empty : cellMatches synAmount "" = false := by decide

theorem bindName_cm_name (r c : ℕ) (txt : String) (st : ScanState) :
    (bindName r c txt st).cm.name =
      if (st.cm.name.isNone && cellMatches synName txt) = true then some c
      else st.cm.name := by
  by_cases h : (st.cm.name.isNone && cellMatches synName txt) = true <;> simp [bindName, h]

theorem bindQty_cm_qty (r c : ℕ) (txt : String) (st : ScanState) :
    (bindQty r c txt st).cm.qty =
      if (st.cm.qty.isNone && cellMatches synQty txt) = true then some c
      else st.cm.qty := by
  by_cases h : (st.cm.qty.isNone && cellMatches synQty txt) = true <;> simp [bindQty, h]

theorem bindUnit_cm_unit (r c : ℕ) (txt : String) (st : ScanState) :
    (bindUnit r c txt st).cm.unit =
      if (st.cm.unit.isNone && cellMatches synUnit txt) = true then some c
      else st.cm.unit := by
  by_cases h : (st.cm.unit.isNone && cellMatches synUnit txt) = true <;> simp [bindUnit, h]

theorem bindPrice_cm_price (r c : ℕ) (txt : String) (st : ScanState) :
    (bindPrice r c txt st).cm.price =
      if (st.cm.price.isNone && cellMatches synPrice txt) = true then some c
      else st.cm.price := by
  by_cases h : (st.cm.price.isNone && cellMatches synPrice txt) = true <;>
    simp [bindPrice, h]

theorem bindAmount_cm_amount (r c : ℕ) (txt : String) (st : ScanState) :
    (bindAmount r c txt st).cm.amount =
      if (st.cm.amount.isNone && cellMatches synAmount txt) = true then some c
      else st.cm.amount := by
  by_cases h : (st.cm.amount.isNone && cellMatches synAmount txt) = true <;>
    simp [bindAmount, h]

theorem bindName_cm_qty (r c : ℕ) (txt : String) (st : ScanState) :
    (bindName r c txt st).cm.qty = st.cm.qty := by unfold bindName; split <;> rfl

theorem bindName_cm_unit (r c : ℕ) (txt : String) (st : ScanState) :
    (bindName r c txt st).cm.unit = st.cm.unit := by unfold bindName; split <;> rfl

theorem bindName_cm_price (r c : ℕ) (txt : String) (st : ScanState) :
    (bindName r c txt st).cm.price = st.cm.price := by unfold bindName; split <;> rfl

theorem bindName_cm_amount (r c : ℕ) (txt : String) (st : ScanState) :
    (bindName r c txt st).cm.amount = st.cm.amount := by unfold bindName; split <;> rfl

theorem bindQty_cm_name (r c : ℕ) (txt : String) (st : ScanState) :
    (bindQty r c txt st).cm.name = st.cm.name := by unfold bindQty; split <;> rfl

theorem bindQty_cm_unit (r c : ℕ) (txt : String) (st : ScanState) :
    (bindQty r c txt st).cm.unit = st.cm.unit := by unfold bindQty; split <;> rfl

theorem bindQty_cm_price (r c : ℕ) (txt : String) (st : ScanState) :
    (bindQty r c txt st).cm.price = st.cm.price := by unfold bindQty; split <;> rfl

theorem bindQty_cm_amount (r c : ℕ) (txt : String) (st : ScanState) :
    (bindQty r c txt st).cm.amount = st.cm.amount := by unfold bindQty; split <;> rfl

theorem bindUnit_cm_name (r c : ℕ) (txt : String) (st : ScanState) :
    (bindUnit r c txt st).cm.name = st.cm.name := by unfold bindUnit; split <;> rfl

theorem bindUnit_cm_qty (r c : ℕ) (txt : String) (st : ScanState) :
    (bindUnit r c txt st).cm.qty = st.cm.qty := by unfold bindUnit; split <;> rfl

theorem bindUnit_cm_price (r c : ℕ) (txt : String) (st : ScanState) :
    (bindUnit r c txt st).cm.price = st.cm.price := by unfold bindUnit; split <;> rfl

theorem bindUnit_cm_amount (r c : ℕ) (txt : String) (st : ScanState) :
    (bindUnit r c txt st).cm.amount = st.cm.amount := by unfold bindUnit; split <;> rfl

theorem bindPrice_cm_name (r c : ℕ) (txt : String) (st : ScanState) :
    (bindPrice r c txt st).cm.name = st.cm.name := by unfold bindPrice; split <;> rfl

theorem bindPrice_cm_qty (r c : ℕ) (txt : String) (st : ScanState) :
    (bindPrice r c txt st).cm.qty = st.cm.qty := by unfold bindPrice; split <;> rfl

theorem bindPrice_cm_unit (r c : ℕ) (txt : String) (st : ScanState) :
    (bindPrice r c txt st).cm.unit = st.cm.unit := by unfold bindPrice; split <;> rfl

theorem bindPrice_cm_amount (r c : ℕ) (txt : String) (st : ScanState) :
    (bindPrice r c txt st).cm.amount = st.cm.amount := by unfold bindPrice; split <;> rfl

theorem bindAmount_cm_name (r c : ℕ) (txt : String) (st : ScanState) :
    (bindAmount r c txt st).cm.name = st.cm.name := by unfold bindAmount; split <;> rfl

theorem bindAmount_cm_qty (r c : ℕ) (txt : String) (st : ScanState) :
    (bindAmount r c txt st).cm.qty = st.cm.qty := by unfold bindAmount; split <;> rfl

theorem bindAmount_cm_unit (r c : ℕ) (txt : String) (st : ScanState) :
    (bindAmount r c txt st).cm.unit = st.cm.unit := by unfold bindAmount; split <;> rfl

theorem bindAmount_cm_price (r c : ℕ) (txt : String) (st : ScanState) :
    (bindAmount r c txt st).cm.price = st.cm.price := by unfold bindAmount; split <;> rfl

theorem bindName_rows (r c : ℕ) (txt : String) (st : ScanState) :
    (bindName r c txt st).rowsFound = st.rowsFound ++
      (if (st.cm.name.isNone && cellMatches synName txt) = true then [r] else []) := by
  by_cases h : (st.cm.name.isNone && cellMatches synName txt) = true <;> simp [bindName, h]

theorem bindQty_rows (r c : ℕ) (txt : String) (st : ScanState) :
    (bindQty r c txt st).rowsFound = st.rowsFound ++
      (if (st.cm.qty.isNone && cellMatches synQty txt) = true then [r] else []) := by
  by_cases h : (st.cm.qty.isNone && cellMatches synQty txt) = true <;> simp [bindQty, h]

theorem bindUnit_rows (r c : ℕ) (txt : String) (st : ScanState) :
    (bindUnit r c txt st).rowsFound = st.rowsFound ++
      (if (st.cm.unit.isNone && cellMatches synUnit txt) = true then [r] else []) := by
  by_cases h : (st.cm.unit.isNone && cellMatches synUnit txt) = true <;> simp [bindUnit, h]

theorem bindPrice_rows (r c : ℕ) (txt : String) (st : ScanState) :
    (bindPrice r c txt st).rowsFound = st.rowsFound ++
      (if (st.cm.price.isNone && cellMatches synPrice txt) = true then [r] else []) := by
  by_cases h : (st.cm.price.isNone && cellMatches synPrice txt) = true <;>
    simp [bindPrice, h]

theorem bindAmount_rows (r c : ℕ) (txt : String) (st : ScanState) :
    (bindAmount r c txt st).rowsFound = st.rowsFound ++
      (if (st.cm.amount.isNone && cellMatches synAmount txt) = true then [r] else []) := by
  by_cases h : (st.cm.amount.isNone && cellMatches synAmount txt) = true <;>
    simp [bindAmount, h]

theorem scanCell_cm_name (r c : ℕ) (cell : String) (st : ScanState) :
    (scanCell r c cell st).cm.name =
      if (st.cm.name.isNone && cellMatches synName (normalizeText cell)) = true then some c
      else st.cm.name := by
  unfold scanCell
  by_cases h0 : normalizeText cell = ""
  · rw [if_pos h0, h0, cellMatches_name_empty]
    simp
  · rw [if_neg h0, bindAmount_cm_name, bindPrice_cm_name, bindUnit_cm_name, bindQty_cm_name,
      bindName_cm_name]

theorem scanCell_cm_qty (r c : ℕ) (cell : String) (st : ScanState) :
    (scanCell r c cell st).cm.qty =
      if (st.cm.qty.isNone && cellMatches synQty (normalizeText cell)) = true then some c
      else st.cm.qty := by
  unfold scanCell
  by_cases h0 : normalizeText cell = ""
  · rw [if_pos h0, h0, cellMatches_qty_empty]
    simp
  · rw [if_neg h0, bindAmount_cm_qty, bindPrice_cm_qty, bindUnit_cm_qty, bindQty_cm_qty,
      bindName_cm_qty]

theorem scanCell_cm_unit (r c : ℕ) (cell : String) (st : ScanState) :
    (scanCell r c cell st).cm.unit =
      if (st.cm.unit.isNone && cellMatches synUnit (normalizeText cell)) = true then some c
      else st.cm.unit := by
  unfold scanCell
  by_cases h0 : normalizeText cell = ""
  · rw [if_pos h0, h0, cellMatches_unit_empty]
    simp
  · rw [if_neg h0, bindAmount_cm_unit, bindPrice_cm_unit, bindUnit_cm_unit, bindQty_cm_unit,
      bindName_cm_unit]

theorem scanCell_cm_price (r c : ℕ) (cell : String) (st : ScanState) :
    (scanCell r c cell st).cm.price =
      if (st.cm.price.isNone && cellMatches synPrice (normalizeText cell)) = true then some c
      else st.cm.price := by
  unfold scanCell
  by_cases h0 : normalizeText cell = ""
  · rw [if_pos h0, h0, cellMatches_price_empty]
    simp
  · rw [if_neg h0, bindAmount_cm_price, bindPrice_cm_price, bindUnit_cm_price,
      bindQty_cm_price, bindName_cm_price]

theorem scanCell_cm_amount (r c : ℕ) (cell : String) (st : ScanState) :
    (scanCell r c cell st).cm.amount =
      if (st.cm.amount.isNone && cellMatches synAmount (normalizeText cell)) = true
      then some c else st.cm.amount := by
  unfold scanCell
  by_cases h0 : normalizeText cell = ""
  · rw [if_pos h0, h0, cellMatches_amount_empty]
    simp
  · rw [if_neg h0, bindAmount_cm_amount, bindPrice_cm_amount, bindUnit_cm_amount,
      bindQty_cm_amount, bindName_cm_amount]

theorem mem_ite_single {c : Prop} [Decidable c] {r' r : ℕ} :
    r' ∈ (if c then [r] else ([] : List ℕ)) ↔ c ∧ r' = r := by
  split <;> simp_all

theorem scanCell_rows_mem (r c : ℕ) (cell : String) (st : ScanState) (r' : ℕ) :
    r' ∈ (scanCell r c cell st).rowsFound ↔
      r' ∈ st.rowsFound ∨
      ((st.cm.name.isNone && cellMatches synName (normalizeText cell)) = true ∧ r' = r) ∨
      ((st.cm.qty.isNone && cellMatches synQty (normalizeText cell)) = true ∧ r' = r) ∨
      ((st.cm.unit.isNone && cellMatches synUnit (normalizeText cell)) = true ∧ r' = r) ∨
      ((st.cm.price.isNone && cellMatches synPrice (normalizeText cell)) = true ∧ r' = r) ∨
      ((st.cm.amount.isNone && cellMatches synAmount (normalizeText cell)) = true ∧ r' = r)
      := by
  unfold scanCell
  by_cases h0 : normalizeText cell = ""
  · rw [if_pos h0, h0, cellMatches_name_empty, cellMatches_qty_empty, cellMatches_unit_empty,
      cellMatches_price_empty, cellMatches_amount_empty]
    simp
  · rw [if_neg h0, bindAmount_rows, bindPrice_rows, bindUnit_rows, bindQty_rows,
      bindName_rows]
    rw [bindPrice_cm_amount, bindUnit_cm_amount, bindQty_cm_amount, bindName_cm_amount,
      bindUnit_cm_price, bindQty_cm_price, bindName_cm_price,
      bindQty_cm_unit, bindName_cm_unit, bindName_cm_qty]
    simp only [List.append_assoc, List.mem_append, mem_ite_single]

theorem fmc_cons_pos {x : ℕ × ℕ × String} {L : List (ℕ × ℕ × String)} {syns : List String}
    (h : matchesCell syns x = true) : firstMatchCol (x :: L) syns = some x.2.1 := by
  rw [firstMatchCol, List.find?_cons_of_pos _ h, Option.map_some']

theorem fmc_cons_neg {x : ℕ × ℕ × String} {L : List (ℕ × ℕ × String)} {syns : List String}
    (h : ¬ matchesCell syns x = true) :
    firstMatchCol (x :: L) syns = firstMatchCol L syns := by
  rw [firstMatchCol, List.find?_cons_of_neg _ (by simpa using h), firstMatchCol]

theorem foldl_cm_name : ∀ (L : List (ℕ × ℕ × String)) (st : ScanState),
    (L.foldl scanCellP st).cm.name = orO st.cm.name (firstMatchCol L synName) := by
  intro L
  induction L with
  | nil => intro st; rw [List.foldl_nil]; cases st.cm.name <;> rfl
  | cons x L ih =>
      intro st
      rw [List.foldl_cons, ih]
      have hcell : (scanCellP st x).cm.name =
          if (st.cm.name.isNone && matchesCell synName x) = true then some x.2.1
          else st.cm.name := scanCell_cm_name x.1 x.2.1 x.2.2 st
      by_cases hm : matchesCell synName x = true
      · cases hn : st.cm.name with
        | some v =>
            rw [hcell]
            simp [hn, orO, fmc_cons_pos hm]
        | none =>
            rw [hcell]
            simp [hn, hm, orO, fmc_cons_pos hm]
      · rw [hcell]
        simp only [hm, Bool.and_false, fmc_cons_neg hm]
        rw [if_neg (by simp [hm])]

theorem foldl_cm_qty : ∀ (L : List (ℕ × ℕ × String)) (st : ScanState),
    (L.foldl scanCellP st).cm.qty = orO st.cm.qty (firstMatchCol L synQty) := by
  intro L
  induction L with
  | nil => intro st; rw [List.foldl_nil]; cases st.cm.qty <;> rfl
  | cons x L ih =>
      intro st
      rw [List.foldl_cons, ih]
      have hcell : (scanCellP st x).cm.qty =
          if (st.cm.qty.isNone && matchesCell synQty x) = true then some x.2.1
          else st.cm.qty := scanCell_cm_qty x.1 x.2.1 x.2.2 st
      by_cases hm : matchesCell synQty x = true
      · cases hn : st.cm.qty with
        | some v =>
            rw [hcell]
            simp [hn, orO, fmc_cons_pos hm]
        | none =>
            rw [hcell]
            simp [hn, hm, orO, fmc_cons_pos hm]
      · rw [hcell]
        simp only [hm, Bool.and_false, fmc_cons_neg hm]
        rw [if_neg (by simp [hm])]

theorem foldl_cm_unit : ∀ (L : List (ℕ × ℕ × String)) (st : ScanState),
    (L.foldl scanCellP st).cm.unit = orO st.cm.unit (firstMatchCol L synUnit) := by
  intro L
  induction L with
  | nil => intro st; rw [List.foldl_nil]; cases st.cm.unit <;> rfl
  | cons x L ih =>
      intro st
      rw [List.foldl_cons, ih]
      have hcell : (scanCellP st x).cm.unit =
          if (st.cm.unit.isNone && matchesCell synUnit x) = true then some x.2.1
          else st.cm.unit := scanCell_cm_unit x.1 x.2.1 x.2.2 st
      by_cases hm : matchesCell synUnit x = true
      · cases hn : st.cm.unit with
        | some v =>
            rw [hcell]
            simp [hn, orO, fmc_cons_pos hm]
        | none =>
            rw [hcell]
            simp [hn, hm, orO, fmc_cons_pos hm]
      · rw [hcell]
        simp only [hm, Bool.and_false, fmc_cons_neg hm]
        rw [if_neg (by simp [hm])]

theorem foldl_cm_price : ∀ (L : List (ℕ × ℕ × String)) (st : ScanState),
    (L.foldl scanCellP st).cm.price = orO st.cm.price (firstMatchCol L synPrice) := by
  intro L
  induction L with
  | nil => intro st; rw [List.foldl_nil]; cases st.cm.price <;> rfl
  | cons x L ih =>
      intro st
      rw [List.foldl_cons, ih]
      have hcell : (scanCellP st x).cm.price =
          if (st.cm.price.isNone && matchesCell synPrice x) = true then some x.2.1
          else st.cm.price := scanCell_cm_price x.1 x.2.1 x.2.2 st
      by_cases hm : matchesCell synPrice x = true
      · cases hn : st.cm.price with
        | some v =>
            rw [hcell]
            simp [hn, orO, fmc_cons_pos hm]
        | none =>
            rw [hcell]
            simp [hn, hm, orO, fmc_cons_pos hm]
      · rw [hcell]
        simp only [hm, Bool.and_false, fmc_cons_neg hm]
        rw [if_neg (by simp [hm])]

theorem foldl_cm_amount : ∀ (L : List (ℕ × ℕ × String)) (st : ScanState),
    (L.foldl scanCellP st).cm.amount = orO st.cm.amount (firstMatchCol L synAmount) := by
  intro L
  induction L with
  | nil => intro st; rw [List.foldl_nil]; cases st.cm.amount <;> rfl
  | cons x L ih =>
      intro st
      rw [List.foldl_cons, ih]
      have hcell : (scanCellP st x).cm.amount =
          if (st.cm.amount.isNone && matchesCell synAmount x) = true then some x.2.1
          else st.cm.amount := scanCell_cm_amount x.1 x.2.1 x.2.2 st
      by_cases hm : matchesCell synAmount x = true
      · cases hn : st.cm.amount with
        | some v =>
            rw [hcell]
            simp [hn, orO, fmc_cons_pos hm]
        | none =>
            rw [hcell]
            simp [hn, hm, orO, fmc_cons_pos hm]
      · rw [hcell]
        simp only [hm, Bool.and_false, fmc_cons_neg hm]
        rw [if_neg (by simp [hm])]

theorem fmr_cons (x : ℕ × ℕ × String) (L : List (ℕ × ℕ × String)) (syns : List String)
    (r' : ℕ) :
    firstMatchRow (x :: L) syns = some r' ↔
      (matchesCell syns x = true ∧ r' = x.1) ∨
      (matchesCell syns x = false ∧ firstMatchRow L syns = some r') := by
  by_cases hm : matchesCell syns x = true
  · rw [firstMatchRow, List.find?_cons_of_pos _ hm, Option.map_some']
    simp [hm, eq_comm]
  · have hm' : matchesCell syns x = false := by simpa using hm
    rw [firstMatchRow, List.find?_cons_of_neg _ (by simpa using hm)]
    simp [hm', firstMatchRow]

theorem ite_eq_none_iff {c : Prop} [Decidable c] {v : ℕ} {o : Option ℕ} :
    (if c then some v else o) = none ↔ (¬ c ∧ o = none) := by
  split <;> simp_all

theorem keyE2 (o : Option ℕ) (m : Bool) (Q R : Prop) :
    (((o.isNone && m) = true ∧ R) ∨ ((¬ (o.isNone && m) = true ∧ o = none) ∧ Q)) ↔
      (o = none ∧ ((m = true ∧ R) ∨ (m = false ∧ Q))) := by
  cases o <;> cases m <;> simp

theorem assembleOr {A e1 e2 e3 e4 e5 d1 d2 d3 d4 d5 D1 D2 D3 D4 D5 : Prop}
    (h1 : e1 ∨ d1 ↔ D1) (h2 : e2 ∨ d2 ↔ D2) (h3 : e3 ∨ d3 ↔ D3) (h4 : e4 ∨ d4 ↔ D4)
    (h5 : e5 ∨ d5 ↔ D5) :
    ((A ∨ e1 ∨ e2 ∨ e3 ∨ e4 ∨ e5) ∨ d1 ∨ d2 ∨ d3 ∨ d4 ∨ d5) ↔
      (A ∨ D1 ∨ D2 ∨ D3 ∨ D4 ∨ D5) := by
  constructor
  · rintro ((hA | he | he | he | he | he) | hd | hd | hd | hd | hd)
    · exact Or.inl hA
    · exact Or.inr (Or.inl (h1.1 (Or.inl he)))
    · exact Or.inr (Or.inr (Or.inl (h2.1 (Or.inl he))))
    · exact Or.inr (Or.inr (Or.inr (Or.inl (h3.1 (Or.inl he)))))
    · exact Or.inr (Or.inr (Or.inr (Or.inr (Or.inl (h4.1 (Or.inl he))))))
    · exact Or.inr (Or.inr (Or.inr (Or.inr (Or.inr (h5.1 (Or.inl he))))))
    · exact Or.inr (Or.inl (h1.1 (Or.inr hd)))
    · exact Or.inr (Or.inr (Or.inl (h2.1 (Or.inr hd))))
    · exact Or.inr (Or.inr (Or.inr (Or.inl (h3.1 (Or.inr hd)))))
    · exact Or.inr (Or.inr (Or.inr (Or.inr (Or.inl (h4.1 (Or.inr hd))))))
    · exact Or.inr (Or.inr (Or.inr (Or.inr (Or.inr (h5.1 (Or.inr hd))))))
  · rintro (hA | hD | hD | hD | hD | hD)
    · exact Or.inl (Or.inl hA)
    · rcases h1.2 hD with he | hd
      · exact Or.inl (Or.inr (Or.inl he))
      · exact Or.inr (Or.inl hd)
    · rcases h2.2 hD with he | hd
      · exact Or.inl (Or.inr (Or.inr (Or.inl he)))
      · exact Or.inr (Or.inr (Or.inl hd))
    · rcases h3.2 hD with he | hd
      · exact Or.inl (Or.inr (Or.inr (Or.inr (Or.inl he))))
      · exact Or.inr (Or.inr (Or.inr (Or.inl hd)))
    · rcases h4.2 hD with he | hd
      · exact Or.inl (Or.inr (Or.inr (Or.inr (Or.inr (Or.inl he)))))
      · exact Or.inr (Or.inr (Or.inr (Or.inr (Or.inl hd))))
    · rcases h5.2 hD with he | hd
      · exact Or.inl (Or.inr (Or.inr (Or.inr (Or.inr (Or.inr he)))))
      · exact Or.inr (Or.inr (Or.inr (Or.inr (Or.inr hd))))

theorem foldl_rows_mem : ∀ (L : List (ℕ × ℕ × String)) (st : ScanState) (r' : ℕ),
    r' ∈ (L.foldl scanCellP st).rowsFound ↔
      r' ∈ st.rowsFound ∨
      (st.cm.name = none ∧ firstMatchRow L synName = some r') ∨
      (st.cm.qty = none ∧ firstMatchRow L synQty = some r') ∨
      (st.cm.unit = none ∧ firstMatchRow L synUnit = some r') ∨
      (st.cm.price = none ∧ firstMatchRow L synPrice = some r') ∨
      (st.cm.amount = none ∧ firstMatchRow L synAmount = some r') := by
  intro L
  induction L with
  | nil =>
      intro st r'
      rw [List.foldl_nil]
      simp [firstMatchRow]
  | cons x L ih =>
      intro st r'
      rw [List.foldl_cons, ih]
      simp only [scanCellP]
      rw [scanCell_rows_mem x.1 x.2.1 x.2.2 st r']
      rw [scanCell_cm_name x.1 x.2.1 x.2.2 st, scanCell_cm_qty x.1 x.2.1 x.2.2 st,
        scanCell_cm_unit x.1 x.2.1 x.2.2 st, scanCell_cm_price x.1 x.2.1 x.2.2 st,
        scanCell_cm_amount x.1 x.2.1 x.2.2 st]
      rw [ite_eq_none_iff, ite_eq_none_iff, ite_eq_none_iff, ite_eq_none_iff,
        ite_eq_none_iff]
      rw [fmr_cons x L synName r', fmr_cons x L synQty r', fmr_cons x L synUnit r',
        fmr_cons x L synPrice r', fmr_cons x L synAmount r']
      simp only [matchesCell]
      exact assembleOr
        (keyE2 st.cm.name (cellMatches synName (normalizeText x.2.2)) _ _)
        (keyE2 st.cm.qty (cellMatches synQty (normalizeText x.2.2)) _ _)
        (keyE2 st.cm.unit (cellMatches synUnit (normalizeText x.2.2)) _ _)
        (keyE2 st.cm.price (cellMatches synPrice (normalizeText x.2.2)) _ _)
        (keyE2 st.cm.amount (cellMatches synAmount (normalizeText x.2.2)) _ _)

theorem scanRow_eq (r : ℕ) (cells : Row) (st : ScanState) :
    scanRow r cells st = (cells.enum.map (fun q => (r, q.1, q.2))).foldl scanCellP st := by
  unfold scanRow
  rw [List.foldl_map]
  rfl

theorem scanTable_eq_flat (t : Table) (w : ℕ) :
    scanTable t w = (flatCells t w).foldl scanCellP {} := by
  unfold scanTable flatCells
  suffices h : ∀ (rows : List (ℕ × Row)) (st : ScanState),
      rows.foldl (fun st p => scanRow p.1 p.2 st) st =
        (rows.flatMap (fun p => p.2.enum.map (fun q => (p.1, q.1, q.2)))).foldl scanCellP st
    from h _ _
  intro rows
  induction rows with
  | nil => intro st; rfl
  | cons p ps ih =>
      intro st
      rw [List.foldl_cons, List.flatMap_cons, List.foldl_append, ih, scanRow_eq]

theorem scanTable_cm_name (t : Table) (w : ℕ) :
    (scanTable t w).cm.name = firstMatchCol (flatCells t w) synName := by
  rw [scanTable_eq_flat, foldl_cm_name]
  rfl

theorem scanTable_cm_qty (t : Table) (w : ℕ) :
    (scanTable t w).cm.qty = firstMatchCol (flatCells t w) synQty := by
  rw [scanTable_eq_flat, foldl_cm_qty]
  rfl

theorem scanTable_cm_unit (t : Table) (w : ℕ) :
    (scanTable t w).cm.unit = firstMatchCol (flatCells t w) synUnit := by
  rw [scanTable_eq_flat, foldl_cm_unit]
  rfl

theorem scanTable_cm_price (t : Table) (w : ℕ) :
    (scanTable t w).cm.price = firstMatchCol (flatCells t w) synPrice := by
  rw [scanTable_eq_flat, foldl_cm_price]
  rfl

theorem scanTable_cm_amount (t : Table) (w : ℕ) :
    (scanTable t w).cm.amount = firstMatchCol (flatCells t w) synAmount := by
  rw [scanTable_eq_flat, foldl_cm_amount]
  rfl

theorem scanTable_rows_mem (t : Table) (w r' : ℕ) :
    r' ∈ (scanTable t w).rowsFound ↔
      firstMatchRow (flatCells t w) synName = some r' ∨
      firstMatchRow (flatCells t w) synQty = some r' ∨
      firstMatchRow (flatCells t w) synUnit = some r' ∨
      firstMatchRow (flatCells t w) synPrice = some r' ∨
      firstMatchRow (flatCells t w) synAmount = some r' := by
  rw [scanTable_eq_flat, foldl_rows_mem]
  simp

theorem foldl_max_mem : ∀ (xs : List ℕ) (x : ℕ), xs.foldl max x ∈ x :: xs := by
  intro xs
  induction xs with
  | nil => intro x; simp
  | cons y ys ih =>
      intro x
      rw [List.foldl_cons]
      rcases List.mem_cons.1 (ih (max x y)) with h | h
      · rw [h]
        rcases Nat.le_total x y with hxy | hxy
        · rw [Nat.max_eq_right hxy]
          exact List.mem_cons_of_mem _ (List.mem_cons_self _ _)
        · rw [Nat.max_eq_left hxy]
          exact List.mem_cons_self _ _
      · exact List.mem_cons_of_mem _ (List.mem_cons_of_mem _ h)

theorem foldl_max_ge : ∀ (xs : List ℕ) (x : ℕ),
    x ≤ xs.foldl max x ∧ ∀ p ∈ xs, p ≤ xs.foldl max x := by
  intro xs
  induction xs with
  | nil => intro x; simp
  | cons y ys ih =>
      intro x
      have h := ih (max x y)
      refine ⟨le_trans (Nat.le_max_left _ _) h.1, ?_⟩
      intro p hp
      rcases List.mem_cons.1 hp with rfl | hp
      · exact le_trans (Nat.le_max_right _ _) h.1
      · exact h.2 p hp

theorem maxList_mem {l : List ℕ} (h : l ≠ []) : maxList l ∈ l := by
  cases l with
  | nil => exact absurd rfl h
  | cons x xs => exact foldl_max_mem xs x

theorem maxList_ge {l : List ℕ} : ∀ x ∈ l, x ≤ maxList l := by
  cases l with
  | nil => simp
  | cons x xs =>
      intro p hp
      rcases List.mem_cons.1 hp with rfl | hp
      · exact (foldl_max_ge xs p).1
      · exact (foldl_max_ge xs x).2 p hp

theorem fmc_isSome_iff_fmr {L : List (ℕ × ℕ × String)} {syns : List String} :
    (firstMatchCol L syns).isSome = (firstMatchRow L syns).isSome := by
  unfold firstMatchCol firstMatchRow
  cases L.find? (matchesCell syns) <;> rfl

/-! ### Claim C6: no early stop in the header scan -/

/-- The two-row table exhibiting the missing early stop: the minimal role set
is already satisfied by row 0 alone, yet row 1 ("ед.") still binds `unit`. -/
def exT6 : Table := [["наименование", "кол-во", "цена"], ["ед.", "", ""]]

set_option maxRecDepth 400000 in
/-- C6 (counterexample): scanning the first row of `exT6` alone already
satisfies the minimal role set (name/qty/price, header end row 0), but the full
scan binds `unit` from row 1 — after the minimal set was satisfied — and
returns header end row 1, not 0.  The claim's "no column role is bound from
any row after the first row at which that set becomes satisfied" and "maximum
row index among the bindings found up to that point" are both violated. -/
theorem C6_early_stop_counterexample :
    findHeaderRowAndColmap [["наименование", "кол-во", "цена"]] 5 =
      .ok (0, ⟨some 0, some 1, none, some 2, none⟩, 0) ∧
    findHeaderRowAndColmap exT6 5 =
      .ok (1, ⟨some 0, some 1, some 0, some 2, none⟩, 0) ∧
    (1 : ℕ) ≠ 0 :=
  ⟨rfl, rfl, by decide⟩

/-- Does some role get (first-)bound at row `r` of the scan window? -/
def bindingRowAt (t : Table) (r : ℕ) : Prop :=
  firstMatchRow (flatCells t 5) synName = some r ∨
  firstMatchRow (flatCells t 5) synQty = some r ∨
  firstMatchRow (flatCells t 5) synUnit = some r ∨
  firstMatchRow (flatCells t 5) synPrice = some r ∨
  firstMatchRow (flatCells t 5) synAmount = some r

/-- C6 (amended): the header scan does not stop early — every role is bound to
its first matching cell in row-major order over the whole window of
`min(5, row count)` rows (so a role may be bound from a row after the minimal
set is already satisfied), and the returned header end row is the maximum row
index among all bindings found in the window. -/
theorem C6_full_window_first_match {t : Table} {he hs : ℕ} {cm : ColMap}
    (h : findHeaderRowAndColmap t 5 = .ok (he, cm, hs)) :
    cm.name = firstMatchCol (flatCells t 5) synName ∧
    cm.qty = firstMatchCol (flatCells t 5) synQty ∧
    cm.unit = firstMatchCol (flatCells t 5) synUnit ∧
    cm.price = firstMatchCol (flatCells t 5) synPrice ∧
    cm.amount = firstMatchCol (flatCells t 5) synAmount ∧
    (∀ r, bindingRowAt t r → r ≤ he) ∧
    (∃ r, bindingRowAt t r ∧ he = r) := by
  unfold findHeaderRowAndColmap at h
  dsimp only at h
  split at h
  case isFalse => exact absurd h (by simp)
  case isTrue hcond =>
    simp only [Except.ok.injEq, Prod.mk.injEq] at h
    obtain ⟨hhe, hcm, _⟩ := h
    have hname : cm.name = firstMatchCol (flatCells t 5) synName := by
      rw [← hcm, scanTable_cm_name]
    refine ⟨hname, by rw [← hcm, scanTable_cm_qty], by rw [← hcm, scanTable_cm_unit],
      by rw [← hcm, scanTable_cm_price], by rw [← hcm, scanTable_cm_amount], ?_, ?_⟩
    · intro r hr
      have hmem : r ∈ (scanTable t 5).rowsFound := (scanTable_rows_mem t 5 r).2 hr
      rw [← hhe]
      exact maxList_ge r hmem
    · have hnameSome : ((scanTable t 5).cm.name).isSome = true := by
        have h1 := hcond
        rw [Bool.and_eq_true, Bool.and_eq_true] at h1
        exact h1.1.1
      have hfmr : (firstMatchRow (flatCells t 5) synName).isSome = true := by
        rw [← fmc_isSome_iff_fmr, ← scanTable_cm_name]
        exact hnameSome
      obtain ⟨r0, hr0⟩ := Option.isSome_iff_exists.1 hfmr
      have hr0mem : r0 ∈ (scanTable t 5).rowsFound :=
        (scanTable_rows_mem t 5 r0).2 (Or.inl hr0)
      have hne : (scanTable t 5).rowsFound ≠ [] := by
        intro hnil
        rw [hnil] at hr0mem
        exact absurd hr0mem (by simp)
      refine ⟨maxList (scanTable t 5).rowsFound,
        (scanTable_rows_mem t 5 _).1 (maxList_mem hne), hhe.symm⟩

set_option maxRecDepth 400000 in
theorem C6_full_window_first_match_witness :
    (⟨some 0, some 1, some 0, some 2, none⟩ : ColMap).name =
        firstMatchCol (flatCells exT6 5) synName ∧
    (⟨some 0, some 1, some 0, some 2, none⟩ : ColMap).qty =
        firstMatchCol (flatCells exT6 5) synQty ∧
    (⟨some 0, some 1, some 0, some 2, none⟩ : ColMap).unit =
        firstMatchCol (flatCells exT6 5) synUnit ∧
    (⟨some 0, some 1, some 0, some 2, none⟩ : ColMap).price =
        firstMatchCol (flatCells exT6 5) synPrice ∧
    (⟨some 0, some 1, some 0, some 2, none⟩ : ColMap).amount =
        firstMatchCol (flatCells exT6 5) synAmount ∧
    (∀ r, bindingRowAt exT6 r → r ≤ 1) ∧
    (∃ r, bindingRowAt exT6 r ∧ 1 = r) :=
  C6_full_window_first_match rfl

/-! ### Claim C5: when header discovery fails -/

/-- The docx minimal role set, phrased declaratively over the scan window's
cell texts: some cell matches a name synonym, some cell matches a quantity
synonym, and some cell matches a price or an amount synonym. -/
def docxHeaderSat (t : Table) : Prop :=
  (∃ x ∈ flatCells t 5, matchesCell synName x = true) ∧
  (∃ x ∈ flatCells t 5, matchesCell synQty x = true) ∧
  ((∃ x ∈ flatCells t 5, matchesCell synPrice x = true) ∨
   (∃ x ∈ flatCells t 5, matchesCell synAmount x = true))

/-- The spreadsheet role set actually required by `_find_table`, phrased
declaratively over the normalized texts of one row: name, quantity, unit and
price keywords must all occur (in nonempty cells) within the first
`min(max_column, 60)` columns of that row. -/
def xlsRowSat (ws : Sheet) (r : ℕ) : Prop :=
  (∃ cell ∈ rowNormed ws r, (xreqName.any (fun k => containsSub k cell && cell ≠ "")) = true) ∧
  (∃ cell ∈ rowNormed ws r, (xreqQty.any (fun k => containsSub k cell && cell ≠ "")) = true) ∧
  (∃ cell ∈ rowNormed ws r, (xreqUnit.any (fun k => containsSub k cell && cell ≠ "")) = true) ∧
  (∃ cell ∈ rowNormed ws r, (xreqPrice.any (fun k => containsSub k cell && cell ≠ "")) = true)

theorem fmc_isSome_iff_exists {L : List (ℕ × ℕ × String)} {syns : List String} :
    (firstMatchCol L syns).isSome = true ↔ ∃ x ∈ L, matchesCell syns x = true := by
  unfold firstMatchCol
  rw [Option.isSome_map']
  exact List.find?_isSome

theorem docxHeaderSat_iff_cond (t : Table) :
    docxHeaderSat t ↔
      ((scanTable t 5).cm.name.isSome && (scanTable t 5).cm.qty.isSome &&
        ((scanTable t 5).cm.price.isSome || (scanTable t 5).cm.amount.isSome)) = true := by
  rw [Bool.and_eq_true, Bool.and_eq_true, Bool.or_eq_true]
  rw [scanTable_cm_name, scanTable_cm_qty, scanTable_cm_price, scanTable_cm_amount]
  unfold docxHeaderSat
  rw [fmc_isSome_iff_exists, fmc_isSome_iff_exists, fmc_isSome_iff_exists,
    fmc_isSome_iff_exists]
  constructor
  · rintro ⟨h1, h2, h3⟩; exact ⟨⟨h1, h2⟩, h3⟩
  · rintro ⟨⟨h1, h2⟩, h3⟩; exact ⟨h1, h2, h3⟩

theorem exists_enumFrom_snd {α : Type} (l : List α) (n : ℕ) (q : α → Prop) :
    (∃ p ∈ l.enumFrom n, q p.2) ↔ ∃ c ∈ l, q c := by
  induction l generalizing n with
  | nil => simp
  | cons c tl ih =>
      rw [List.enumFrom_cons]
      simp only [List.mem_cons]
      constructor
      · rintro ⟨p, hp | hp, hq⟩
        · refine ⟨c, Or.inl rfl, ?_⟩
          rw [hp] at hq
          exact hq
        · obtain ⟨c', hc', hq'⟩ := (ih (n + 1)).1 ⟨p, hp, hq⟩
          exact ⟨c', Or.inr hc', hq'⟩
      · rintro ⟨c', hc' | hc', hq⟩
        · subst hc'
          exact ⟨(n, c'), Or.inl rfl, hq⟩
        · obtain ⟨p, hp, hq'⟩ := (ih (n + 1)).2 ⟨c', hc', hq⟩
          exact ⟨p, Or.inr hp, hq'⟩

theorem exists_enum_snd {α : Type} (l : List α) (q : α → Prop) :
    (∃ p ∈ l.enum, q p.2) ↔ ∃ c ∈ l, q c := by
  rw [List.enum]
  exact exists_enumFrom_snd l 0 q

theorem findColIn_isSome_iff {normed : List String} {keys : List String} :
    (findColIn normed keys).isSome = true ↔
      ∃ cell ∈ normed, (keys.any (fun k => containsSub k cell && cell ≠ "")) = true := by
  unfold findColIn
  rw [Option.isSome_map']
  rw [List.find?_isSome]
  exact exists_enum_snd normed
    (fun cell => (keys.any (fun k => containsSub k cell && cell ≠ "")) = true)

theorem findTableAt_eq_none_iff (ws : Sheet) (r : ℕ) :
    findTableAt ws r = none ↔ ¬ xlsRowSat ws r := by
  unfold findTableAt xlsRowSat
  rw [← findColIn_isSome_iff, ← findColIn_isSome_iff, ← findColIn_isSome_iff,
    ← findColIn_isSome_iff]
  cases h1 : findColIn (rowNormed ws r) xreqName <;>
    cases h2 : findColIn (rowNormed ws r) xreqQty <;>
      cases h3 : findColIn (rowNormed ws r) xreqUnit <;>
        cases h4 : findColIn (rowNormed ws r) xreqPrice <;> simp [h1, h2, h3, h4]

theorem findHeader_error_iff (t : Table) :
    (∃ e, findHeaderRowAndColmap t 5 = .error e) ↔ ¬ docxHeaderSat t := by
  rw [docxHeaderSat_iff_cond]
  unfold findHeaderRowAndColmap
  dsimp only
  by_cases hc : ((scanTable t 5).cm.name.isSome && (scanTable t 5).cm.qty.isSome &&
      ((scanTable t 5).cm.price.isSome || (scanTable t 5).cm.amount.isSome)) = true
  · rw [if_pos hc]
    simp [hc]
  · rw [if_neg hc]
    simp [hc]

theorem findTable_error_iff (ws : Sheet) :
    (∃ e, findTable ws = .error e) ↔
      ¬ ∃ r ∈ List.range' 1 (min (wsMaxRow ws) 120), xlsRowSat ws r := by
  unfold findTable
  cases hfs : (List.range' 1 (min (wsMaxRow ws) 120)).findSome? (findTableAt ws) with
  | some v =>
      constructor
      · rintro ⟨e, he⟩
        exact absurd he (by simp)
      · intro hno
        exfalso
        obtain ⟨r, hr, hv⟩ := List.exists_of_findSome?_eq_some hfs
        refine hno ⟨r, hr, ?_⟩
        by_contra hnot
        rw [← findTableAt_eq_none_iff ws r] at hnot
        rw [hnot] at hv
        exact Option.noConfusion hv
  | none =>
      constructor
      · intro _
        rintro ⟨r, hr, hsat⟩
        have hnone : findTableAt ws r = none := by
          rw [List.findSome?_eq_none] at hfs
          exact hfs r hr
        exact (findTableAt_eq_none_iff ws r).1 hnone hsat
      · intro _
        exact ⟨_, rfl⟩

/-- A spreadsheet whose single row binds the claim's minimal set
(name/quantity/amount) but not the unit or price keywords. -/
def exWs5 : Sheet :=
  [[some (.s "наименование"), some (.s "количество"), some (.s "сумма")]]

set_option maxRecDepth 400000 in
/-- C5 (counterexample): the spreadsheet `exWs5` binds name, quantity and
amount — the claim's minimal role set — within the scan window, yet
`_find_table` rejects it (it requires unit and price as well), so "any table
binding that minimal set within the window is accepted" is false. -/
theorem C5_minimal_set_counterexample :
    findTable exWs5 = .error "Не удалось найти таблицу в шаблоне Excel по заголовкам." ∧
    findColIn (rowNormed exWs5 1) xreqName = some 1 ∧
    findColIn (rowNormed exWs5 1) xreqQty = some 2 ∧
    findColIn (rowNormed exWs5 1) xreqAmount = some 3 :=
  ⟨rfl, rfl, rfl, rfl⟩

/-- C5 (amended): header discovery fails exactly when the required role set is
never satisfied within the scan window — for word-processing tables the set
name/quantity/(price or amount), accumulated across the first `min(5, rows)`
rows; for spreadsheets the set name/quantity/unit/price, bound within a single
row among rows `1..min(max_row, 120)` (amount optional).  Any table satisfying
the respective set within the window is accepted. -/
theorem C5_header_error_iff :
    (∀ t : Table, (∃ e, findHeaderRowAndColmap t 5 = .error e) ↔ ¬ docxHeaderSat t) ∧
    (∀ ws : Sheet, (∃ e, findTable ws = .error e) ↔
      ¬ ∃ r ∈ List.range' 1 (min (wsMaxRow ws) 120), xlsRowSat ws r) :=
  ⟨findHeader_error_iff, findTable_error_iff⟩


/-! ### Money formatting round-trip: `_to_decimal_safe` of `_fmt_money` -/

theorem digitChar_isDigit {d : ℕ} (h : d < 10) : (Nat.digitChar d).isDigit = true := by
  interval_cases d <;> decide

theorem digitChar_toNat {d : ℕ} (h : d < 10) :
    (Nat.digitChar d).toNat - 48 = d := by
  interval_cases d <;> decide

theorem isDigit_ws_false {c : Char} (h : c.isDigit = true) : isWsChar c = false := by
  cases hw : isWsChar c
  · rfl
  · exfalso
    simp only [isWsChar, Bool.or_eq_true, decide_eq_true_eq] at hw
    rcases hw with ((((h1 | h1) | h1) | h1) | h1) | h1 <;> subst h1 <;> exact absurd h (by decide)

theorem isDigit_ne_space {c : Char} (h : c.isDigit = true) : c ≠ ' ' := by
  intro hc; subst hc; exact absurd h (by decide)

theorem digitsToNat_append_single (ds : List Char) (c : Char) :
    digitsToNat (ds ++ [c]) = 10 * digitsToNat ds + (c.toNat - 48) := by
  simp [digitsToNat, List.foldl_append]

theorem natToDigitsAux_spec : ∀ (fuel n : ℕ), n < 10 ^ (fuel + 1) →
    natToDigitsAux (fuel + 1) n ≠ [] ∧
    (∀ c ∈ natToDigitsAux (fuel + 1) n, c.isDigit = true) ∧
    digitsToNat (natToDigitsAux (fuel + 1) n) = n := by
  intro fuel
  induction fuel with
  | zero =>
      intro n hn
      rw [pow_one] at hn
      rw [natToDigitsAux, if_pos hn]
      refine ⟨by simp, ?_, ?_⟩
      · intro c hc
        rw [List.mem_singleton] at hc
        subst hc
        exact digitChar_isDigit hn
      · show digitsToNat ([] ++ [Nat.digitChar n]) = n
        rw [digitsToNat_append_single]
        have := digitChar_toNat hn
        simp [digitsToNat, this]
  | succ fuel ih =>
      intro n hn
      by_cases h10 : n < 10
      · rw [natToDigitsAux, if_pos h10]
        refine ⟨by simp, ?_, ?_⟩
        · intro c hc
          rw [List.mem_singleton] at hc
          subst hc
          exact digitChar_isDigit h10
        · show digitsToNat ([] ++ [Nat.digitChar n]) = n
          rw [digitsToNat_append_single]
          have := digitChar_toNat h10
          simp [digitsToNat, this]
      · rw [natToDigitsAux, if_neg h10]
        have hdiv : n / 10 < 10 ^ (fuel + 1) := by
          rw [Nat.div_lt_iff_lt_mul (by norm_num)]
          calc n < 10 ^ (fuel + 1 + 1) := hn
          _ = 10 ^ (fuel + 1) * 10 := by rw [pow_succ]
        obtain ⟨h1, h2, h3⟩ := ih (n / 10) hdiv
        have hm : n % 10 < 10 := Nat.mod_lt _ (by norm_num)
        refine ⟨by simp, ?_, ?_⟩
        · intro c hc
          rw [List.mem_append, List.mem_singleton] at hc
          rcases hc with hc | hc
          · exact h2 c hc
          · subst hc; exact digitChar_isDigit hm
        · rw [digitsToNat_append_single, h3, digitChar_toNat hm]
          omega

theorem natToDigits_spec (n : ℕ) :
    natToDigits n ≠ [] ∧
    (∀ c ∈ natToDigits n, c.isDigit = true) ∧
    digitsToNat (natToDigits n) = n := by
  refine natToDigitsAux_spec n n ?_
  calc n < 10 ^ n := Nat.lt_pow_self (by norm_num) n
  _ ≤ 10 ^ (n + 1) := Nat.pow_le_pow_right (by norm_num) (by omega)

theorem gtr_eq_nil : ∀ l : List Char, groupThousandsRev l = [] → l = []
  | [], _ => rfl
  | [a], h => by simp [groupThousandsRev] at h
  | [a, b], h => by simp [groupThousandsRev] at h
  | [a, b, c], h => by simp [groupThousandsRev] at h
  | a :: b :: c :: d :: rest, h => by
      rw [groupThousandsRev] at h
      simp at h

theorem gtr_getLast? : ∀ l : List Char, (groupThousandsRev l).getLast? = l.getLast?
  | [] => rfl
  | [a] => rfl
  | [a, b] => rfl
  | [a, b, c] => rfl
  | a :: b :: c :: d :: rest => by
      rw [groupThousandsRev]
      cases hX : groupThousandsRev (d :: rest) with
      | nil => exact absurd (gtr_eq_nil _ hX) (by simp)
      | cons x xs =>
          have ih := gtr_getLast? (d :: rest)
          rw [hX] at ih
          simp only [List.getLast?_cons_cons]
          rw [ih]

theorem mem_gtr : ∀ (l : List Char) (c : Char), c ∈ groupThousandsRev l → c = ' ' ∨ c ∈ l
  | [], c, h => Or.inr h
  | [a], c, h => Or.inr h
  | [a, b], c, h => Or.inr h
  | [a, b, x], c, h => Or.inr h
  | a :: b :: x :: d :: rest, c, h => by
      rw [groupThousandsRev] at h
      simp only [List.mem_cons] at h ⊢
      rcases h with h | h | h | h | h
      · exact Or.inr (Or.inl h)
      · exact Or.inr (Or.inr (Or.inl h))
      · exact Or.inr (Or.inr (Or.inr (Or.inl h)))
      · exact Or.inl h
      · rcases mem_gtr (d :: rest) c h with h' | h'
        · exact Or.inl h'
        · simp only [List.mem_cons] at h'
          rcases h' with h' | h'
          · exact Or.inr (Or.inr (Or.inr (Or.inr (Or.inl h'))))
          · exact Or.inr (Or.inr (Or.inr (Or.inr (Or.inr h'))))

theorem gtr_filter : ∀ l : List Char, (∀ c ∈ l, c ≠ ' ') →
    (groupThousandsRev l).filter (fun c => c ≠ ' ') = l
  | [], _ => rfl
  | [a], h => by
      have ha := h a (by simp)
      simp [groupThousandsRev, List.filter_cons, ha]
  | [a, b], h => by
      have ha := h a (by simp)
      have hb := h b (by simp)
      simp [groupThousandsRev, List.filter_cons, ha, hb]
  | [a, b, c], h => by
      have ha := h a (by simp)
      have hb := h b (by simp)
      have hc := h c (by simp)
      simp [groupThousandsRev, List.filter_cons, ha, hb, hc]
  | a :: b :: c :: d :: rest, h => by
      have ha := h a (by simp)
      have hb := h b (by simp)
      have hc := h c (by simp)
      have htl : ∀ x ∈ d :: rest, x ≠ ' ' := by
        intro x hx
        exact h x (by simp [List.mem_cons] at hx ⊢; tauto)
      have ih := gtr_filter (d :: rest) htl
      simp only [ne_eq, decide_not] at ih
      rw [groupThousandsRev]
      simp [List.filter_cons, ha, hb, hc, ih]

theorem isDigit_ne_comma {c : Char} (h : c.isDigit = true) : c ≠ ',' := by
  intro hc; subst hc; exact absurd h (by decide)

theorem isDigit_ne_dot {c : Char} (h : c.isDigit = true) : c ≠ '.' := by
  intro hc; subst hc; exact absurd h (by decide)

theorem isDigit_ne_dash {c : Char} (h : c.isDigit = true) : c ≠ '-' := by
  intro hc; subst hc; exact absurd h (by decide)

theorem isDigit_ne_nbsp {c : Char} (h : c.isDigit = true) : c ≠ Char.ofNat 0xA0 := by
  intro hc; subst hc; exact absurd h (by decide)

theorem map_eq_self_of {f : Char → Char} : ∀ l : List Char, (∀ c ∈ l, f c = c) → l.map f = l
  | [], _ => rfl
  | c :: cs, h => by
      rw [List.map_cons, h c (by simp), map_eq_self_of cs (fun x hx => h x (by simp [hx]))]

theorem dropWhile_eq_self_of_head {p : Char → Bool} : ∀ {l : List Char},
    (∀ c, l.head? = some c → p c = false) → l.dropWhile p = l
  | [], _ => rfl
  | c :: cs, h => by
      have := h c rfl
      simp [List.dropWhile_cons, this]

theorem pyStripL_eq_self {l : List Char}
    (h1 : ∀ c, l.head? = some c → isWsChar c = false)
    (h2 : ∀ c, l.getLast? = some c → isWsChar c = false) :
    pyStripL l = l := by
  unfold pyStripL
  rw [dropWhile_eq_self_of_head h1]
  rw [dropWhile_eq_self_of_head (by intro c hc; rw [List.head?_reverse] at hc; exact h2 c hc)]
  exact List.reverse_reverse l

theorem gd_head? {ds : List Char} (h : ds ≠ []) : (groupDigits ds).head? = ds.head? := by
  unfold groupDigits
  rw [List.head?_reverse, gtr_getLast?, List.getLast?_reverse]

theorem gd_ne_nil {ds : List Char} (h : ds ≠ []) : groupDigits ds ≠ [] := by
  unfold groupDigits
  intro hc
  rw [List.reverse_eq_nil_iff] at hc
  have := gtr_eq_nil _ hc
  rw [List.reverse_eq_nil_iff] at this
  exact h this

theorem mem_gd {ds : List Char} {c : Char} (h : c ∈ groupDigits ds) : c = ' ' ∨ c ∈ ds := by
  unfold groupDigits at h
  rw [List.mem_reverse] at h
  rcases mem_gtr _ _ h with h' | h'
  · exact Or.inl h'
  · exact Or.inr (List.mem_reverse.mp h')

theorem gd_filter {ds : List Char} (h : ∀ c ∈ ds, c ≠ ' ') :
    (groupDigits ds).filter (fun c => c ≠ ' ') = ds := by
  unfold groupDigits
  rw [List.filter_reverse, gtr_filter _ (fun c hc => h c (List.mem_reverse.mp hc)),
    List.reverse_reverse]

theorem takeWhile_digits_dot : ∀ (ds : List Char), (∀ c ∈ ds, c.isDigit = true) →
    ∀ rest : List Char, (ds ++ '.' :: rest).takeWhile (fun c => c ≠ '.') = ds
  | [], _, rest => by simp
  | d :: ds, h, rest => by
      have hd := isDigit_ne_dot (h d (by simp))
      rw [List.cons_append,
        List.takeWhile_cons_of_pos (p := fun c => decide (c ≠ '.')) (decide_eq_true hd),
        takeWhile_digits_dot ds (fun x hx => h x (by simp [hx])) rest]

theorem dropWhile_digits_dot : ∀ (ds : List Char), (∀ c ∈ ds, c.isDigit = true) →
    ∀ rest : List Char, (ds ++ '.' :: rest).dropWhile (fun c => c ≠ '.') = '.' :: rest
  | [], _, rest => by simp
  | d :: ds, h, rest => by
      have hd := isDigit_ne_dot (h d (by simp))
      rw [List.cons_append,
        List.dropWhile_cons_of_pos (p := fun c => decide (c ≠ '.')) (decide_eq_true hd)]
      exact dropWhile_digits_dot ds (fun x hx => h x (by simp [hx])) rest

theorem parseDecChars_money (neg : Prop) [Decidable neg] (ds : List Char) (f1 f2 : Char)
    (hds_ne : ds ≠ []) (hds_dig : ∀ c ∈ ds, c.isDigit = true)
    (hf1 : f1.isDigit = true) (hf2 : f2.isDigit = true) :
    parseDecChars ((if neg then ['-'] else []) ++ ds ++ '.' :: [f1, f2]) =
      some (if neg then
              -((digitsToNat ds : ℚ) + (digitsToNat [f1, f2] : ℚ) / (10 : ℚ) ^ 2)
            else ((digitsToNat ds : ℚ) + (digitsToNat [f1, f2] : ℚ) / (10 : ℚ) ^ 2)) := by
  have hany : (ds ++ '.' :: [f1, f2]).any (fun c => c = '-') = false := by
    rw [List.any_eq_false]
    intro x hx
    simp only [List.mem_append, List.mem_cons, List.not_mem_nil, or_false] at hx
    rcases hx with hx | hx | hx | hx
    · simpa using isDigit_ne_dash (hds_dig x hx)
    · subst hx; decide
    · subst hx; simpa using isDigit_ne_dash hf1
    · subst hx; simpa using isDigit_ne_dash hf2
  have hsplit : splitAtDot (ds ++ '.' :: [f1, f2]) = some (ds, [f1, f2]) := by
    rw [splitAtDot]
    simp only [takeWhile_digits_dot ds hds_dig [f1, f2], dropWhile_digits_dot ds hds_dig [f1, f2]]
    have : ([f1, f2].any (fun c => c = '.')) = false := by
      rw [List.any_eq_false]
      intro x hx
      simp only [List.mem_cons, List.not_mem_nil, or_false] at hx
      rcases hx with hx | hx
      · subst hx; simpa using isDigit_ne_dot hf1
      · subst hx; simpa using isDigit_ne_dot hf2
    rw [this]
    simp
  have hall : ((ds ++ [f1, f2]).all Char.isDigit) = true ∧ ds ++ [f1, f2] ≠ [] := by
    constructor
    · rw [List.all_eq_true]
      intro x hx
      simp only [List.mem_append, List.mem_cons, List.not_mem_nil, or_false] at hx
      rcases hx with hx | hx | hx
      · exact hds_dig x hx
      · subst hx; exact hf1
      · subst hx; exact hf2
    · simp [hds_ne]
  by_cases hb : neg
  · rw [if_pos hb, if_pos hb]
    have hshape : (['-'] ++ ds ++ '.' :: [f1, f2] : List Char) = '-' :: (ds ++ '.' :: [f1, f2]) := by
      simp
    rw [hshape, parseDecChars]
    simp only [List.head?_cons, List.tail_cons, if_true]
    rw [hany]
    simp only [Bool.false_eq_true, if_false]
    rw [hsplit]
    dsimp only
    rw [if_pos hall]
    norm_num
  · rw [if_neg hb, if_neg hb]
    obtain ⟨d0, ds1, hcons⟩ := List.exists_cons_of_ne_nil hds_ne
    have hd0 : d0.isDigit = true := hds_dig d0 (by rw [hcons]; simp)
    have hd0ne : ¬ (d0 = '-') := isDigit_ne_dash hd0
    have hshape : (([] : List Char) ++ ds ++ '.' :: [f1, f2]) = ds ++ '.' :: [f1, f2] := by simp
    rw [hshape, parseDecChars]
    have hhead : (ds ++ '.' :: [f1, f2]).head? = some d0 := by
      rw [hcons]; simp
    rw [hhead]
    have hneg' : ¬ ((some d0 : Option Char) = some '-') := by
      simpa using hd0ne
    rw [if_neg hneg']
    rw [hany]
    simp only [Bool.false_eq_true, if_false]
    rw [hsplit]
    dsimp only
    rw [if_pos hall]
    rw [if_neg hneg']
    norm_num

theorem digitsToNat_two (fp : ℕ) (hfp : fp < 100) :
    digitsToNat [Nat.digitChar (fp / 10), Nat.digitChar (fp % 10)] = fp := by
  simp only [digitsToNat, List.foldl_cons, List.foldl_nil]
  have e1 : (Nat.digitChar (fp / 10)).toNat - 48 = fp / 10 := digitChar_toNat (by omega)
  have e2 : (Nat.digitChar (fp % 10)).toNat - 48 = fp % 10 := digitChar_toNat (by omega)
  rw [show '0'.toNat = 48 from rfl]
  omega

set_option maxHeartbeats 1000000 in
theorem toDecimalSafe_money (neg : Prop) [Decidable neg] (ip fp : ℕ) (hfp : fp < 100) :
    toDecimalSafe (String.mk ((if neg then ['-'] else []) ++
        groupDigits (natToDigits ip) ++ [','] ++
        [Nat.digitChar (fp / 10), Nat.digitChar (fp % 10)])) =
      if neg then -((ip : ℚ) + (fp : ℚ) / 100) else ((ip : ℚ) + (fp : ℚ) / 100) := by
  obtain ⟨hds_ne, hds_dig, hds_val⟩ := natToDigits_spec ip
  have hf1 : (Nat.digitChar (fp / 10)).isDigit = true := digitChar_isDigit (by omega)
  have hf2 : (Nat.digitChar (fp % 10)).isDigit = true := digitChar_isDigit (by omega)
  have hmemF : ∀ c ∈ (if neg then ['-'] else []) ++ groupDigits (natToDigits ip) ++ [','] ++
      [Nat.digitChar (fp / 10), Nat.digitChar (fp % 10)],
      c = '-' ∨ c = ',' ∨ c = ' ' ∨ c.isDigit = true := by
    intro c hc
    simp only [List.mem_append, List.mem_cons, List.not_mem_nil, or_false] at hc
    rcases hc with ((hc | hc) | hc) | hc | hc
    · split at hc
      · simp only [List.mem_cons, List.not_mem_nil, or_false] at hc
        exact Or.inl hc
      · simp at hc
    · rcases mem_gd hc with h' | h'
      · exact Or.inr (Or.inr (Or.inl h'))
      · exact Or.inr (Or.inr (Or.inr (hds_dig c h')))
    · exact Or.inr (Or.inl hc)
    · subst hc; exact Or.inr (Or.inr (Or.inr hf1))
    · subst hc; exact Or.inr (Or.inr (Or.inr hf2))
  -- the NBSP replacement is the identity here
  have h0 : ((if neg then ['-'] else []) ++ groupDigits (natToDigits ip) ++ [','] ++
      [Nat.digitChar (fp / 10), Nat.digitChar (fp % 10)]).map
        (fun c => if c = Char.ofNat 0xA0 then ' ' else c) =
      (if neg then ['-'] else []) ++ groupDigits (natToDigits ip) ++ [','] ++
      [Nat.digitChar (fp / 10), Nat.digitChar (fp % 10)] := by
    refine map_eq_self_of _ ?_
    intro c hc
    rcases hmemF c hc with h' | h' | h' | h'
    · subst h'; rfl
    · subst h'; rfl
    · subst h'; rfl
    · rw [if_neg (isDigit_ne_nbsp h')]
  -- stripping whitespace is the identity here
  have hstrip : pyStripL ((if neg then ['-'] else []) ++ groupDigits (natToDigits ip) ++ [','] ++
      [Nat.digitChar (fp / 10), Nat.digitChar (fp % 10)]) =
      (if neg then ['-'] else []) ++ groupDigits (natToDigits ip) ++ [','] ++
      [Nat.digitChar (fp / 10), Nat.digitChar (fp % 10)] := by
    refine pyStripL_eq_self ?_ ?_
    · intro c hc
      obtain ⟨d0, ds1, hcons⟩ := List.exists_cons_of_ne_nil hds_ne
      by_cases hb : neg
      · rw [if_pos hb] at hc
        simp only [List.singleton_append, List.cons_append, List.head?_cons] at hc
        injection hc with hc'
        subst hc'
        decide
      · rw [if_neg hb, List.nil_append, List.head?_append, List.head?_append,
          gd_head? hds_ne, hcons, List.head?_cons] at hc
        simp only [Option.or] at hc
        injection hc with hc'
        subst hc'
        exact isDigit_ws_false (hds_dig d0 (by rw [hcons]; simp))
    · intro c hc
      rw [show ((if neg then ['-'] else []) ++ groupDigits (natToDigits ip) ++ [','] ++
          [Nat.digitChar (fp / 10), Nat.digitChar (fp % 10)]) =
          ((if neg then ['-'] else []) ++ groupDigits (natToDigits ip) ++ [','] ++
            [Nat.digitChar (fp / 10)]) ++ [Nat.digitChar (fp % 10)] from by
            simp [List.append_assoc]] at hc
      rw [List.getLast?_concat] at hc
      injection hc with hc'
      subst hc'
      exact isDigit_ws_false hf2
  -- dropping the grouping spaces
  have h2 : ((if neg then ['-'] else []) ++ groupDigits (natToDigits ip) ++ [','] ++
      [Nat.digitChar (fp / 10), Nat.digitChar (fp % 10)]).filter (fun c => c ≠ ' ') =
      (if neg then ['-'] else []) ++ natToDigits ip ++ [','] ++
      [Nat.digitChar (fp / 10), Nat.digitChar (fp % 10)] := by
    have p1 : List.filter (fun c => c ≠ ' ') (if neg then ['-'] else []) =
        (if neg then ['-'] else []) := by split <;> rfl
    have p2 : List.filter (fun c => c ≠ ' ') (groupDigits (natToDigits ip)) = natToDigits ip :=
      gd_filter (fun c hc => isDigit_ne_space (hds_dig c hc))
    have p4 : List.filter (fun c => c ≠ ' ')
        [Nat.digitChar (fp / 10), Nat.digitChar (fp % 10)] =
        [Nat.digitChar (fp / 10), Nat.digitChar (fp % 10)] := by
      simp only [List.filter_cons, List.filter_nil]
      rw [if_pos (decide_eq_true (isDigit_ne_space hf1)),
        if_pos (decide_eq_true (isDigit_ne_space hf2))]
    rw [List.filter_append, List.filter_append, List.filter_append, p1, p2, p4]
    rfl
  -- comma to dot
  have h3 : ((if neg then ['-'] else []) ++ natToDigits ip ++ [','] ++
      [Nat.digitChar (fp / 10), Nat.digitChar (fp % 10)]).map
        (fun c => if c = ',' then '.' else c) =
      (if neg then ['-'] else []) ++ natToDigits ip ++ ['.'] ++
      [Nat.digitChar (fp / 10), Nat.digitChar (fp % 10)] := by
    have q1 : List.map (fun c => if c = ',' then '.' else c) (if neg then ['-'] else []) =
        (if neg then ['-'] else []) := by split <;> rfl
    have q2 : List.map (fun c => if c = ',' then '.' else c) (natToDigits ip) =
        natToDigits ip :=
      map_eq_self_of _ (fun c hc => if_neg (isDigit_ne_comma (hds_dig c hc)))
    have q4 : List.map (fun c => if c = ',' then '.' else c)
        [Nat.digitChar (fp / 10), Nat.digitChar (fp % 10)] =
        [Nat.digitChar (fp / 10), Nat.digitChar (fp % 10)] := by
      rw [List.map_cons, List.map_cons, List.map_nil, if_neg (isDigit_ne_comma hf1),
        if_neg (isDigit_ne_comma hf2)]
    rw [List.map_append, List.map_append, List.map_append, q1, q2, q4]
    rfl
  -- the digit/dot/minus filter keeps everything
  have h4 : ((if neg then ['-'] else []) ++ natToDigits ip ++ ['.'] ++
      [Nat.digitChar (fp / 10), Nat.digitChar (fp % 10)]).filter
        (fun c => c.isDigit || c = '.' || c = '-') =
      (if neg then ['-'] else []) ++ natToDigits ip ++ ['.'] ++
      [Nat.digitChar (fp / 10), Nat.digitChar (fp % 10)] := by
    rw [List.filter_eq_self]
    intro c hc
    simp only [List.mem_append, List.mem_cons, List.not_mem_nil, or_false] at hc
    rcases hc with ((hc | hc) | hc) | hc | hc
    · split at hc
      · simp only [List.mem_cons, List.not_mem_nil, or_false] at hc
        subst hc; decide
      · simp at hc
    · rw [hds_dig c hc]; rfl
    · subst hc; decide
    · subst hc; rw [hf1]; rfl
    · subst hc; rw [hf2]; rfl
  -- reassociate to the shape of parseDecChars_money
  have hre : (if neg then ['-'] else []) ++ natToDigits ip ++ ['.'] ++
      [Nat.digitChar (fp / 10), Nat.digitChar (fp % 10)] =
      (if neg then ['-'] else []) ++ natToDigits ip ++
        '.' :: [Nat.digitChar (fp / 10), Nat.digitChar (fp % 10)] := by
    rw [List.append_assoc ((if neg then ['-'] else []) ++ natToDigits ip)]
    rfl
  -- the guard cannot fire: the list has at least four characters
  have hguard : ¬ ((if neg then ['-'] else []) ++ natToDigits ip ++
        '.' :: [Nat.digitChar (fp / 10), Nat.digitChar (fp % 10)] = [] ∨
      (if neg then ['-'] else []) ++ natToDigits ip ++
        '.' :: [Nat.digitChar (fp / 10), Nat.digitChar (fp % 10)] = ['-'] ∨
      (if neg then ['-'] else []) ++ natToDigits ip ++
        '.' :: [Nat.digitChar (fp / 10), Nat.digitChar (fp % 10)] = ['.']) := by
    have hds_len : 1 ≤ (natToDigits ip).length := by
      cases hcons : natToDigits ip with
      | nil => exact absurd hcons hds_ne
      | cons a l => simp
    intro h
    rcases h with h | h | h
    all_goals
      have hlcontra := congrArg List.length h
      simp only [List.length_append, List.length_cons, List.length_nil,
        List.length_singleton] at hlcontra
      omega
  rw [toDecimalSafe]
  dsimp only
  rw [h0, hstrip, h2, h3, h4, hre]
  rw [if_neg hguard]
  rw [parseDecChars_money neg (natToDigits ip) _ _ hds_ne hds_dig hf1 hf2]
  rw [Option.getD_some]
  rw [hds_val, digitsToNat_two fp hfp]
  by_cases hb : neg
  · rw [if_pos hb, if_pos hb]
    try norm_num
  · rw [if_neg hb, if_neg hb]
    try norm_num

set_option maxHeartbeats 1000000 in
theorem toDecimalSafe_fmtMoney (v : ℚ) : toDecimalSafe (fmtMoney v) = quantize2 v := by
  have hfm : fmtMoney v = String.mk ((if roundHalfUpInt (v * 100) < 0 then ['-'] else []) ++
      groupDigits (natToDigits ((roundHalfUpInt (v * 100)).natAbs / 100)) ++ [','] ++
      [Nat.digitChar ((roundHalfUpInt (v * 100)).natAbs % 100 / 10),
       Nat.digitChar ((roundHalfUpInt (v * 100)).natAbs % 100 % 10)]) := by
    apply String.ext
    simp only [fmtMoney, String.data_append, apply_ite String.data]
  rw [hfm, toDecimalSafe_money (roundHalfUpInt (v * 100) < 0) _ _ (Nat.mod_lt _ (by norm_num))]
  rw [quantize2]
  by_cases hb : roundHalfUpInt (v * 100) < 0
  · rw [if_pos hb]
    have h1 : (((roundHalfUpInt (v * 100)).natAbs : ℕ) : ℚ) =
        -((roundHalfUpInt (v * 100) : ℤ) : ℚ) := by
      rw [Int.cast_natAbs]
      exact_mod_cast abs_of_nonpos (le_of_lt hb)
    have h2 : (((roundHalfUpInt (v * 100)).natAbs : ℕ) : ℚ) =
        100 * (((roundHalfUpInt (v * 100)).natAbs / 100 : ℕ) : ℚ) +
          (((roundHalfUpInt (v * 100)).natAbs % 100 : ℕ) : ℚ) := by
      exact_mod_cast (Nat.div_add_mod (roundHalfUpInt (v * 100)).natAbs 100).symm
    linarith [h1, h2]
  · rw [if_neg hb]
    have h1 : (((roundHalfUpInt (v * 100)).natAbs : ℕ) : ℚ) =
        ((roundHalfUpInt (v * 100) : ℤ) : ℚ) := by
      rw [Int.cast_natAbs]
      exact_mod_cast abs_of_nonneg (not_lt.mp hb)
    have h2 : (((roundHalfUpInt (v * 100)).natAbs : ℕ) : ℚ) =
        100 * (((roundHalfUpInt (v * 100)).natAbs / 100 : ℕ) : ℚ) +
          (((roundHalfUpInt (v * 100)).natAbs % 100 : ℕ) : ℚ) := by
      exact_mod_cast (Nat.div_add_mod (roundHalfUpInt (v * 100)).natAbs 100).symm
    linarith [h1, h2]

def readCell (t : Table) (r c : ℕ) : Option String :=
  (t.get? r).bind (fun row => row.get? c)

theorem roundHalfUpInt_intCast (k : ℤ) : roundHalfUpInt (k : ℚ) = k := by
  rw [roundHalfUpInt]
  by_cases hk : (k : ℚ) < 0
  · rw [if_pos hk]
    rw [show -(k : ℚ) + 1 / 2 = 1 / 2 + ((-k : ℤ) : ℚ) from by push_cast; ring,
      Int.floor_add_int]
    norm_num
  · rw [if_neg hk]
    rw [show (k : ℚ) + 1 / 2 = 1 / 2 + ((k : ℤ) : ℚ) from by push_cast; ring,
      Int.floor_add_int]
    norm_num

theorem quantize2_idem (q : ℚ) : quantize2 (quantize2 q) = quantize2 q := by
  rw [quantize2, quantize2]
  rw [div_mul_cancel₀ _ (by norm_num : (100 : ℚ) ≠ 0)]
  rw [roundHalfUpInt_intCast]

theorem safeSet_readCell {t : Table} {ac : ℕ} {i : ℤ} {v : ℚ}
    (h0 : 0 ≤ i) (h1 : i < (t.length : ℤ))
    (hc : ac < ((t.get? i.toNat).getD []).length) :
    readCell (safeSet t ac i v) i.toNat ac = some (fmtMoney v) := by
  rw [safeSet, if_pos ⟨h0, h1⟩, if_pos hc, readCell]
  have hlt : i.toNat < t.length := by omega
  rw [List.get?_set_eq_of_lt _ hlt]
  rw [Option.some_bind]
  rw [List.get?_set_eq_of_lt _ hc]

theorem safeSet_get?_ne {t : Table} {ac : ℕ} {i : ℤ} {v : ℚ} {j : ℕ}
    (hj : (j : ℤ) ≠ i) :
    (safeSet t ac i v).get? j = t.get? j := by
  rw [safeSet]
  by_cases hcond : 0 ≤ i ∧ i < (t.length : ℤ)
  · rw [if_pos hcond]
    by_cases hc : ac < ((t.get? i.toNat).getD []).length
    · rw [if_pos hc]
      exact List.get?_set_ne _ _ (by omega)
    · rw [if_neg hc]
  · rw [if_neg hcond]

theorem updateTotals_eq_three {t : Table} {cm : ColMap} {ti : TotalsIdx} {shift : ℤ}
    {items : List Item} {ac it iv iw : ℕ}
    (hac : pyOrCol cm.amount cm.price = some ac)
    (h1 : ti.total = some it) (h2 : ti.vat = some iv) (h3 : ti.twv = some iw) :
    updateTotals t cm ti shift items =
      safeSet (safeSet (safeSet t ac ((it : ℤ) + shift) (totalsValues items).1)
          ac ((iv : ℤ) + shift) (totalsValues items).2.1)
        ac ((iw : ℤ) + shift) (totalsValues items).2.2 := by
  rw [updateTotals, hac, h1, h2, h3]

/-- C4 (amended): at each recorded totals row, shifted by the net index shift,
`_update_totals` writes the money-formatted figure of that category: the grand
total cell holds `_fmt_money` of the exact sum em of the item amounts - a text
that parses back (by the code's own `_to_decimal_safe`) to em rounded half-up
to 2 decimals, not to em itself - the VAT cell holds `_fmt_money` of
`quantize2 (em * 20 / 120)` and the total-without-VAT cell `_fmt_money` of
`quantize2 (em - vat)`, and those two rounded figures parse back exactly.
Preconditions: an amount column is selected, the three categories are recorded
at pairwise distinct rows, each shifted row is in range and the amount column
exists in each target row. -/
theorem C4_totals_rounded {t : Table} {cm : ColMap} {ti : TotalsIdx} {shift : ℤ}
    {items : List Item} {ac it iv iw : ℕ}
    (hac : pyOrCol cm.amount cm.price = some ac)
    (hrec : ti.total = some it ∧ ti.vat = some iv ∧ ti.twv = some iw)
    (hdist : it ≠ iv ∧ it ≠ iw ∧ iv ≠ iw)
    (hrange : 0 ≤ (it : ℤ) + shift ∧ (it : ℤ) + shift < (t.length : ℤ) ∧
              0 ≤ (iv : ℤ) + shift ∧ (iv : ℤ) + shift < (t.length : ℤ) ∧
              0 ≤ (iw : ℤ) + shift ∧ (iw : ℤ) + shift < (t.length : ℤ))
    (hcols : ac < ((t.get? ((it : ℤ) + shift).toNat).getD []).length ∧
             ac < ((t.get? ((iv : ℤ) + shift).toNat).getD []).length ∧
             ac < ((t.get? ((iw : ℤ) + shift).toNat).getD []).length) :
    (readCell (updateTotals t cm ti shift items) ((it : ℤ) + shift).toNat ac =
        some (fmtMoney ((items.map Item.amount).foldl (· + ·) 0)) ∧
      toDecimalSafe (fmtMoney ((items.map Item.amount).foldl (· + ·) 0)) =
        quantize2 ((items.map Item.amount).foldl (· + ·) 0)) ∧
    (readCell (updateTotals t cm ti shift items) ((iv : ℤ) + shift).toNat ac =
        some (fmtMoney (quantize2 ((items.map Item.amount).foldl (· + ·) 0 * 20 / 120))) ∧
      toDecimalSafe (fmtMoney (quantize2 ((items.map Item.amount).foldl (· + ·) 0 * 20 / 120))) =
        quantize2 ((items.map Item.amount).foldl (· + ·) 0 * 20 / 120)) ∧
    (readCell (updateTotals t cm ti shift items) ((iw : ℤ) + shift).toNat ac =
        some (fmtMoney (quantize2 ((items.map Item.amount).foldl (· + ·) 0 -
          quantize2 ((items.map Item.amount).foldl (· + ·) 0 * 20 / 120)))) ∧
      toDecimalSafe (fmtMoney (quantize2 ((items.map Item.amount).foldl (· + ·) 0 -
          quantize2 ((items.map Item.amount).foldl (· + ·) 0 * 20 / 120)))) =
        quantize2 ((items.map Item.amount).foldl (· + ·) 0 -
          quantize2 ((items.map Item.amount).foldl (· + ·) 0 * 20 / 120))) := by
  obtain ⟨ht, hv, hw⟩ := hrec
  obtain ⟨d1, d2, d3⟩ := hdist
  obtain ⟨r1, r2, r3, r4, r5, r6⟩ := hrange
  obtain ⟨c1, c2, c3⟩ := hcols
  have e1 : ((((it : ℤ) + shift).toNat : ℕ) : ℤ) = (it : ℤ) + shift := Int.toNat_of_nonneg r1
  have e2 : ((((iv : ℤ) + shift).toNat : ℕ) : ℤ) = (iv : ℤ) + shift := Int.toNat_of_nonneg r3
  have e3 : ((((iw : ℤ) + shift).toNat : ℕ) : ℤ) = (iw : ℤ) + shift := Int.toNat_of_nonneg r5
  rw [updateTotals_eq_three hac ht hv hw]
  refine ⟨⟨?_, toDecimalSafe_fmtMoney _⟩,
    ⟨?_, (toDecimalSafe_fmtMoney _).trans (quantize2_idem _)⟩,
    ⟨?_, (toDecimalSafe_fmtMoney _).trans (quantize2_idem _)⟩⟩
  · rw [readCell, safeSet_get?_ne (by omega), safeSet_get?_ne (by omega)]
    exact safeSet_readCell r1 r2 c1
  · rw [readCell, safeSet_get?_ne (by omega)]
    have hS1v : (safeSet t ac ((it : ℤ) + shift) (totalsValues items).1).get?
        (((iv : ℤ) + shift).toNat) = t.get? (((iv : ℤ) + shift).toNat) :=
      safeSet_get?_ne (by omega)
    have h1' :            (iv : ℤ) + shift <
        ((safeSet t ac ((it : ℤ) + shift) (totalsValues items).1).length : ℤ) := by
      rw [safeSet_length]; exact r4
    have hc' : ac < (((safeSet t ac ((it : ℤ) + shift) (totalsValues items).1).get?
        (((iv : ℤ) + shift).toNat)).getD []).length := by
      rw [hS1v]; exact c2
    exact safeSet_readCell r3 h1' hc'
  · have hS1w : (safeSet t ac ((it : ℤ) + shift) (totalsValues items).1).get?
        (((iw : ℤ) + shift).toNat) = t.get? (((iw : ℤ) + shift).toNat) :=
      safeSet_get?_ne (by omega)
    have hS2w : (safeSet (safeSet t ac ((it : ℤ) + shift) (totalsValues items).1)
          ac ((iv : ℤ) + shift) (totalsValues items).2.1).get?
        (((iw : ℤ) + shift).toNat) = t.get? (((iw : ℤ) + shift).toNat) := by
      rw [safeSet_get?_ne (by omega), hS1w]
    have h1' : (iw : ℤ) + shift <
        ((safeSet (safeSet t ac ((it : ℤ) + shift) (totalsValues items).1)
          ac ((iv : ℤ) + shift) (totalsValues items).2.1).length : ℤ) := by
      rw [safeSet_length, safeSet_length]; exact r6
    have hc' : ac < (((safeSet (safeSet t ac ((it : ℤ) + shift) (totalsValues items).1)
          ac ((iv : ℤ) + shift) (totalsValues items).2.1).get?
        (((iw : ℤ) + shift).toNat)).getD []).length := by
      rw [hS2w]; exact c3
    exact safeSet_readCell r5 h1' hc'

def exT4w : Table := [["итого", ""], ["ндс", ""], ["итого без ндс", ""]]

def exCm4 : ColMap := ⟨none, none, none, none, some 1⟩

def exTi4 : TotalsIdx := ⟨some 0, some 1, some 2⟩

def exI4w : Item := ⟨"a", 1, "шт", 1, 1⟩

/-- Witness for C4: a three-row totals template with one item, evaluated at
shift 0 and amount column 1. -/
theorem C4_totals_rounded_witness :
    (readCell (updateTotals exT4w exCm4 exTi4 0 [exI4w]) 0 1 =
        some (fmtMoney (([exI4w].map Item.amount).foldl (· + ·) 0)) ∧
      toDecimalSafe (fmtMoney (([exI4w].map Item.amount).foldl (· + ·) 0)) =
        quantize2 (([exI4w].map Item.amount).foldl (· + ·) 0)) ∧
    (readCell (updateTotals exT4w exCm4 exTi4 0 [exI4w]) 1 1 =
        some (fmtMoney (quantize2 (([exI4w].map Item.amount).foldl (· + ·) 0 * 20 / 120))) ∧
      toDecimalSafe (fmtMoney (quantize2 (([exI4w].map Item.amount).foldl (· + ·) 0 * 20 / 120))) =
        quantize2 (([exI4w].map Item.amount).foldl (· + ·) 0 * 20 / 120)) ∧
    (readCell (updateTotals exT4w exCm4 exTi4 0 [exI4w]) 2 1 =
        some (fmtMoney (quantize2 (([exI4w].map Item.amount).foldl (· + ·) 0 -
          quantize2 (([exI4w].map Item.amount).foldl (· + ·) 0 * 20 / 120)))) ∧
      toDecimalSafe (fmtMoney (quantize2 (([exI4w].map Item.amount).foldl (· + ·) 0 -
          quantize2 (([exI4w].map Item.amount).foldl (· + ·) 0 * 20 / 120)))) =
        quantize2 (([exI4w].map Item.amount).foldl (· + ·) 0 -
          quantize2 (([exI4w].map Item.amount).foldl (· + ·) 0 * 20 / 120))) :=
  @C4_totals_rounded exT4w exCm4 exTi4 0 [exI4w] 1 0 1 2
    rfl ⟨rfl, rfl, rfl⟩ (by decide) (by decide) (by decide)

def exI4c : Item := ⟨"a", 1, "шт", 1 / 200, 1 / 200⟩

/-- C4 counterexample: for the single item of amount 1/200, the grand-total
cell receives `_fmt_money` of the exact sum 1/200, and that text parses back
to 1/100, which is not the sum of the amounts: the grand total actually
written is the half-up 2-decimal rounding of the sum, not the sum itself as
the claim states. -/
theorem C4_totals_exact_counterexample :
    readCell (updateTotals [["итого", ""]] ⟨none, none, none, none, some 1⟩
        ⟨some 0, none, none⟩ 0 [exI4c]) 0 1 =
      some (fmtMoney ((totalsValues [exI4c]).1)) ∧
    toDecimalSafe (fmtMoney ((totalsValues [exI4c]).1)) ≠ (totalsValues [exI4c]).1 := by
  constructor
  · show readCell (safeSet [["итого", ""]] 1 ((0 : ℤ) + 0) (totalsValues [exI4c]).1)
      ((0 : ℤ) + 0).toNat 1 = some (fmtMoney ((totalsValues [exI4c]).1))
    exact safeSet_readCell (by decide) (by decide) (by decide)
  · rw [toDecimalSafe_fmtMoney]
    have hs : (totalsValues [exI4c]).1 = 1 / 200 := by
      norm_num [totalsValues, exI4c]
    rw [hs]
    norm_num [quantize2, roundHalfUpInt]

theorem roundHalfUpInt_nonneg {q : ℚ} (h : 0 ≤ q) : 0 ≤ roundHalfUpInt q := by
  rw [roundHalfUpInt, if_neg (not_lt.mpr h)]
  exact Int.floor_nonneg.mpr (by linarith)

theorem quantize2_nonneg {q : ℚ} (h : 0 ≤ q) : 0 ≤ quantize2 q := by
  rw [quantize2]
  apply div_nonneg _ (by norm_num)
  exact_mod_cast roundHalfUpInt_nonneg (mul_nonneg h (by norm_num))

theorem roundToStep_nonneg {v s : ℚ} (hv : 0 ≤ v) : 0 ≤ roundToStep v s := by
  by_cases hs : s ≤ 0
  · rw [roundToStep, if_pos hs]; exact hv
  · rw [roundToStep, if_neg hs]
    have hs' : 0 < s := lt_of_not_le hs
    apply quantize2_nonneg
    apply mul_nonneg _ (le_of_lt hs')
    exact_mod_cast roundHalfUpInt_nonneg (div_nonneg hv (le_of_lt hs'))

theorem applyPricingAux_length (st : VariantSettings) (rng : ℕ → ℚ) :
    ∀ (n : ℕ) (l : List Item), (applyPricingAux st rng n l).length = l.length
  | _, [] => rfl
  | n, it :: rest => by
      rw [applyPricingAux]
      simp only [List.length_cons, applyPricingAux_length st rng (n + 1) rest]

theorem applyPricingAux_get? (st : VariantSettings) (rng : ℕ → ℚ) :
    ∀ (n : ℕ) (l : List Item) (i : ℕ) (it : Item), l.get? i = some it →
      (applyPricingAux st rng n l).get? i = some
        { name := it.name, qty := it.qty, unit := it.unit,
          price := roundToStep (max (adjustedPrice st rng (n + i) it.price) (1 / 100))
            st.rounding_step,
          amount := quantize2 (roundToStep
            (max (adjustedPrice st rng (n + i) it.price) (1 / 100)) st.rounding_step * it.qty) }
  | _, [], i, it, h => by simp at h
  | n, x :: rest, 0, it, h => by
      rw [List.get?_cons_zero] at h
      injection h with h'
      subst h'
      rw [applyPricingAux, List.get?_cons_zero, Nat.add_zero]
  | n, x :: rest, i + 1, it, h => by
      rw [List.get?_cons_succ] at h
      rw [applyPricingAux, List.get?_cons_succ]
      have hrec := applyPricingAux_get? st rng (n + 1) rest i it h
      have harith : n + 1 + i = n + (i + 1) := by omega
      rw [harith] at hrec
      exact hrec

/-- C9 (amended): `apply_pricing` returns a fresh list of the same length
(never mutating its input, which the pure embedding reflects); each output
item keeps the input item's name, quantity and unit, its price is
`_round_to_step (max (adjusted, 0.01)) rounding_step` - always nonnegative,
and at least 0.01 whenever `rounding_step <= 0` - and its amount is the new
price times the quantity, rounded half-up to 2 decimals.  The claim's blanket
"price at least 0.01" is false: a positive rounding step is applied after the
0.01 clamp and can round the price down to 0 (see the counterexample). -/
theorem C9_pricing_spec (items : List Item) (st : VariantSettings) (rng : ℕ → ℚ) :
    (applyPricing items st rng).length = items.length ∧
    ∀ i it, items.get? i = some it →
      (applyPricing items st rng).get? i = some
        { name := it.name, qty := it.qty, unit := it.unit,
          price := roundToStep (max (adjustedPrice st rng i it.price) (1 / 100))
            st.rounding_step,
          amount := quantize2 (roundToStep
            (max (adjustedPrice st rng i it.price) (1 / 100)) st.rounding_step * it.qty) } ∧
      0 ≤ roundToStep (max (adjustedPrice st rng i it.price) (1 / 100)) st.rounding_step ∧
      (st.rounding_step ≤ 0 →
        1 / 100 ≤ roundToStep (max (adjustedPrice st rng i it.price) (1 / 100))
          st.rounding_step) := by
  refine ⟨applyPricingAux_length st rng 0 items, ?_⟩
  intro i it h
  have h0 := applyPricingAux_get? st rng 0 items i it h
  rw [Nat.zero_add] at h0
  refine ⟨h0, ?_, ?_⟩
  · exact roundToStep_nonneg (le_trans (by norm_num) (le_max_right _ _))
  · intro hs
    rw [roundToStep, if_pos hs]
    exact le_max_right _ _

def exI9 : Item := ⟨"x", 1, "шт", 1 / 100, 1 / 100⟩

def exSt9 : VariantSettings := ⟨0, 0, 0, 1⟩

/-- C9 counterexample: an item priced 0.01 with rounding step 1 and no markup
comes out with price 0 < 0.01: `_round_to_step` runs after the clamp
`base = max(base, 0.01)` and rounds 0.01/1 half-up to 0. -/
theorem C9_price_floor_counterexample :
    applyPricing [exI9] exSt9 (fun _ => 0) =
      [{ name := "x", qty := 1, unit := "шт", price := 0, amount := 0 }] ∧
    ¬ ((1 : ℚ) / 100 ≤ 0) := by
  constructor
  · have hadj : adjustedPrice exSt9 (fun _ => 0) 0 (exI9.price) = 1 / 100 := by
      rw [adjustedPrice]
      norm_num [exSt9, exI9]
    have hprice : roundToStep (max (adjustedPrice exSt9 (fun _ => 0) 0 (exI9.price)) (1 / 100))
        exSt9.rounding_step = 0 := by
      rw [hadj, max_self]
      rw [show exSt9.rounding_step = 1 from rfl]
      rw [roundToStep, if_neg (by norm_num)]
      norm_num [quantize2, roundHalfUpInt]
    rw [applyPricing, applyPricingAux, applyPricingAux]
    rw [hprice]
    norm_num [quantize2, roundHalfUpInt, exI9]
  · norm_num


end KP
